import Mathlib

/-!
# Verification of the background job system (`core/background_jobs.py`)

Shallow embedding of `JobStatus`, `JobPriority`, `Job`, `JobQueue` and the
module-level `JobManager` helpers.  Time is modelled as natural-number
seconds (`datetime.now()` becomes an explicit `now` argument), the handler
(`job.func`) is modelled by a `HandlerRun` value supplied at the execution
step (what the handler does on that attempt: raise or return, and how long
it takes), and the cooperative asyncio interleaving is modelled by a step
machine whose atomic operations are the synchronous (await-free) code
segments of the Python source: `add_job`, `_process_scheduled_jobs`,
`_start_available_jobs`, the start of the `_execute_job` coroutine body
(`create_task` schedules the body; it runs at a later event-loop slice),
the remainder of `_execute_job` (try/except/finally), `cancel_job`, and
`_cleanup_completed_jobs`.
-/

inductive JobStatus where
  | pending
  | running
  | completed
  | failed
  | cancelled
  | retrying
deriving DecidableEq

inductive JobPriority where
  | low
  | normal
  | high
  | critical
deriving DecidableEq

/-- `JobPriority.value`: LOW = 1, NORMAL = 2, HIGH = 3, CRITICAL = 4. -/
def JobPriority.value : JobPriority → Nat
  | .low => 1
  | .normal => 2
  | .high => 3
  | .critical => 4

/-- The `Job` dataclass.  `func`, `args`, `kwargs`, `metadata` are not data the
claims depend on: the handler's behaviour is supplied at each execution step
as a `HandlerRun`.  `id` is a fresh natural number standing for `uuid4()`. -/
structure Job where
  id : Nat
  name : String
  status : JobStatus
  priority : JobPriority
  createdAt : Nat
  startedAt : Option Nat
  completedAt : Option Nat
  result : Option String
  error : Option String
  retryCount : Int
  maxRetries : Int
  retryDelay : Nat
  scheduledAt : Option Nat
  timeout : Option Nat
deriving DecidableEq

/-- The `JobQueue._stats` counter dictionary. -/
structure Stats where
  totalJobs : Nat
  completedJobs : Nat
  failedJobs : Nat
  cancelledJobs : Nat
deriving DecidableEq

/-- Whether the `_execute_job` coroutine body has started running
(`create_task` only schedules it; the body runs at a later loop slice). -/
inductive TaskPhase where
  | created
  | started
deriving DecidableEq

/-- An entry of `JobQueue._running`: the task for one job id, with whether
`task.cancel()` has been requested on it. -/
structure RunEntry where
  id : Nat
  phase : TaskPhase
  cancelRequested : Bool
deriving DecidableEq

/-- The `JobQueue` state: `_jobs` (dict in insertion order), `_queue`
(job ids in priority order), `_running` (dict id -> task), `_stats`,
and a counter supplying fresh job ids. -/
structure QueueState where
  name : String
  maxWorkers : Nat
  jobs : List Job
  queue : List Nat
  running : List RunEntry
  stats : Stats
  nextId : Nat
deriving DecidableEq

def findJob (jobs : List Job) (id : Nat) : Option Job :=
  jobs.find? (fun j => j.id == id)

/-- Mutation of the `Job` object held in `self._jobs[id]` (Python mutates the
record in place; every update used below preserves the `id` field). -/
def updateJob (jobs : List Job) (id : Nat) (f : Job → Job) : List Job :=
  jobs.map (fun j => if j.id = id then f j else j)

def runningKeys (s : QueueState) : List Nat := s.running.map (fun e => e.id)

/-- Priority value of the job stored under `id` (`self._jobs[queued_job_id]`;
the id always names a stored job when `_enqueue_job` runs, so the default
branch is unreachable). -/
def prioOf (jobs : List Job) (id : Nat) : Nat :=
  ((findJob jobs id).map (fun j => j.priority.value)).getD 0

/-- The insertion loop of `_enqueue_job`: insert before the first queued id of
strictly lower priority value, else append (so equal priorities keep FIFO
order). -/
def enqueueInsert (prio : Nat → Nat) (p : Nat) (jobId : Nat) : List Nat → List Nat
  | [] => [jobId]
  | q :: rest =>
    if p > prio q then jobId :: q :: rest
    else q :: enqueueInsert prio p jobId rest

/-- `JobQueue._enqueue_job`. -/
def enqueueJob (s : QueueState) (jobId : Nat) : QueueState :=
  if jobId ∈ s.queue then s
  else
    match findJob s.jobs jobId with
    | none => s
    | some job =>
      { s with queue := enqueueInsert (prioOf s.jobs) job.priority.value jobId s.queue }

/-- The creation-time arguments of `add_job`. -/
structure JobSpec where
  name : String
  priority : JobPriority
  maxRetries : Int
  retryDelay : Nat
  scheduledAt : Option Nat
  timeout : Option Nat
deriving DecidableEq

/-- `JobQueue.add_job`: build the `Job`, store it, bump `total_jobs`, and
enqueue immediately unless `scheduled_at` lies in the future.  Returns the
job id; no handler code runs inside this call. -/
def addJob (s : QueueState) (spec : JobSpec) (now : Nat) : QueueState × Nat :=
  let jobId := s.nextId
  let job : Job :=
    { id := jobId, name := spec.name, status := .pending, priority := spec.priority,
      createdAt := now, startedAt := none, completedAt := none, result := none,
      error := none, retryCount := 0, maxRetries := spec.maxRetries,
      retryDelay := spec.retryDelay, scheduledAt := spec.scheduledAt,
      timeout := spec.timeout }
  let s1 : QueueState :=
    { s with jobs := s.jobs ++ [job], nextId := s.nextId + 1,
             stats := { s.stats with totalJobs := s.stats.totalJobs + 1 } }
  let s2 :=
    match spec.scheduledAt with
    | none => enqueueJob s1 jobId
    | some t => if t ≤ now then enqueueJob s1 jobId else s1
  (s2, jobId)

/-- `JobQueue.get_job`. -/
def getJob (s : QueueState) (id : Nat) : Option Job := findJob s.jobs id

/-- `task.cancel()` on `self._running[job_id]`. -/
def setCancelRequested (running : List RunEntry) (id : Nat) : List RunEntry :=
  running.map (fun e => if e.id = id then { e with cancelRequested := true } else e)

/-- `JobQueue.cancel_job`. -/
def cancelJob (s : QueueState) (jobId : Nat) : QueueState × Bool :=
  match findJob s.jobs jobId with
  | none => (s, false)
  | some job =>
    if job.status = .pending then
      ({ s with
          jobs := updateJob s.jobs jobId (fun j => { j with status := .cancelled }),
          queue := if jobId ∈ s.queue then s.queue.erase jobId else s.queue,
          stats := { s.stats with cancelledJobs := s.stats.cancelledJobs + 1 } }, true)
    else if job.status = .running then
      if jobId ∈ runningKeys s then
        ({ s with
            running := setCancelRequested s.running jobId,
            jobs := updateJob s.jobs jobId (fun j => { j with status := .cancelled }),
            stats := { s.stats with cancelledJobs := s.stats.cancelledJobs + 1 } }, true)
      else (s, false)
    else (s, false)

/-- The loop body of `_process_scheduled_jobs`: a stored job that is
`PENDING`, has a due `scheduled_at`, and is not already queued, is enqueued. -/
def promoteStep (now : Nat) (acc : QueueState) (job : Job) : QueueState :=
  match job.scheduledAt with
  | none => acc
  | some t =>
    if job.status = .pending ∧ t ≤ now ∧ job.id ∉ acc.queue then
      enqueueJob acc job.id
    else acc

/-- `JobQueue._process_scheduled_jobs`: iterate over the stored jobs in dict
order; only `_queue` is mutated during the iteration. -/
def processScheduledJobs (s : QueueState) (now : Nat) : QueueState :=
  s.jobs.foldl (promoteStep now) s

/-- `self._running[job_id] = task` (dict assignment: replace or append). -/
def addRunning (s : QueueState) (jobId : Nat) : QueueState :=
  if jobId ∈ runningKeys s then
    { s with running := s.running.map (fun e =>
        if e.id = jobId then ⟨jobId, .created, false⟩ else e) }
  else
    { s with running := s.running ++ [⟨jobId, .created, false⟩] }

/-- The while loop of `_start_available_jobs`, with fuel equal to the initial
queue length (every iteration pops one id).  A popped id that no longer names
a stored job would raise `KeyError` in Python, aborting the pass; that case
returns the state as popped. -/
def startAvailableAux : Nat → QueueState → QueueState
  | 0, s => s
  | fuel + 1, s =>
    if s.running.length < s.maxWorkers then
      match s.queue with
      | [] => s
      | jobId :: rest =>
        let s1 : QueueState := { s with queue := rest }
        match findJob s1.jobs jobId with
        | none => s1
        | some job =>
          if job.status = .cancelled then startAvailableAux fuel s1
          else startAvailableAux fuel (addRunning s1 jobId)
    else s

/-- `JobQueue._start_available_jobs`. -/
def startAvailableJobs (s : QueueState) : QueueState :=
  startAvailableAux s.queue.length s

/-- The first synchronous segment of the `_execute_job` coroutine body:
`job.status = RUNNING; job.started_at = now`, up to the first await. -/
def beginExec (s : QueueState) (jobId : Nat) (now : Nat) : QueueState :=
  match s.running.find? (fun e => e.id == jobId) with
  | none => s
  | some e =>
    match e.phase with
    | .started => s
    | .created =>
      { s with
          jobs := updateJob s.jobs jobId (fun j =>
            { j with status := .running, startedAt := some now }),
          running := s.running.map (fun e2 =>
            if e2.id = jobId then { e2 with phase := .started } else e2) }

/-- What the handler does on one attempt: `raises = some msg` means the call
raises an exception whose `str` is `msg`; otherwise it returns `value`.
`duration` is the wall time the call takes, raced against `job.timeout`. -/
structure HandlerRun where
  raises : Option String
  value : String
  duration : Nat
deriving DecidableEq

/-- The exception reaching the `except` clauses of `_execute_job`, if any:
when `timeout` is set and exceeded, `asyncio.wait_for` raises
`asyncio.TimeoutError`, whose `str` is the empty string; otherwise the
handler's own exception propagates. -/
def excOfRun (job : Job) (run : HandlerRun) : Option String :=
  match job.timeout with
  | some t => if run.duration > t then some "" else run.raises
  | none => run.raises

def removeRunning (s : QueueState) (jobId : Nat) : QueueState :=
  { s with running := s.running.filter (fun e => ¬ e.id = jobId) }

/-- The rest of `_execute_job`: the `try` result / `except CancelledError` /
`except Exception` accounting, then the `finally` removal from `_running`.
If `task.cancel()` was requested, the pending await raises `CancelledError`. -/
def finishExec (s : QueueState) (jobId : Nat) (run : HandlerRun) (now : Nat) :
    QueueState :=
  match s.running.find? (fun e => e.id == jobId) with
  | none => s
  | some e =>
    match findJob s.jobs jobId with
    | none => s
    | some job =>
      if e.phase = .created then s
      else
        let s1 :=
          if e.cancelRequested then
            { s with
                jobs := updateJob s.jobs jobId (fun j =>
                  { j with status := .cancelled, completedAt := some now }),
                stats := { s.stats with
                  cancelledJobs := s.stats.cancelledJobs + 1 } }
          else
            match excOfRun job run with
            | none =>
              { s with
                  jobs := updateJob s.jobs jobId (fun j =>
                    { j with result := some run.value, status := .completed,
                             completedAt := some now }),
                  stats := { s.stats with
                    completedJobs := s.stats.completedJobs + 1 } }
            | some msg =>
              if job.retryCount + 1 ≤ job.maxRetries then
                { s with
                    jobs := updateJob s.jobs jobId (fun j =>
                      { j with error := some msg,
                               retryCount := j.retryCount + 1,
                               status := .retrying,
                               scheduledAt := some (now + j.retryDelay) }) }
              else
                { s with
                    jobs := updateJob s.jobs jobId (fun j =>
                      { j with error := some msg,
                               retryCount := j.retryCount + 1,
                               status := .failed,
                               completedAt := some now }),
                    stats := { s.stats with
                      failedJobs := s.stats.failedJobs + 1 } }
        removeRunning s1 jobId

def isTerminal (st : JobStatus) : Bool :=
  st == .completed || st == .failed || st == .cancelled

/-- The removal test of `_cleanup_completed_jobs`: terminal status and a
`completed_at` strictly older than the 24-hour retention window. -/
def shouldRemove (now : Nat) (job : Job) : Bool :=
  isTerminal job.status &&
    match job.completedAt with
    | some t => decide (t < now - 24 * 3600)
    | none => false

/-- `JobQueue._cleanup_completed_jobs`. -/
def cleanupCompletedJobs (s : QueueState) (now : Nat) : QueueState :=
  { s with jobs := s.jobs.filter (fun job => ! shouldRemove now job) }

/-- `JobQueue.__init__`. -/
def initQueue (name : String) (maxWorkers : Nat) : QueueState :=
  { name := name, maxWorkers := maxWorkers, jobs := [], queue := [], running := [],
    stats := ⟨0, 0, 0, 0⟩, nextId := 0 }

/-- One atomic (await-free) operation on a `JobQueue`. -/
inductive Op where
  | addJob (spec : JobSpec) (now : Nat)
  | promote (now : Nat)
  | dispatch
  | beginExec (jobId : Nat) (now : Nat)
  | finishExec (jobId : Nat) (run : HandlerRun) (now : Nat)
  | cancelJob (jobId : Nat)
  | cleanup (now : Nat)

def step (s : QueueState) : Op → QueueState
  | .addJob spec now => (addJob s spec now).1
  | .promote now => processScheduledJobs s now
  | .dispatch => startAvailableJobs s
  | .beginExec id now => beginExec s id now
  | .finishExec id rn now => finishExec s id rn now
  | .cancelJob id => (cancelJob s id).1
  | .cleanup now => cleanupCompletedJobs s now

def runOps (s : QueueState) (ops : List Op) : QueueState := ops.foldl step s

/-- The `JobManager`'s queue dictionary. -/
structure ManagerState where
  queues : List (String × QueueState)
deriving DecidableEq

/-- `JobManager.get_queue`. -/
def getQueue (m : ManagerState) (name : String) : Option QueueState :=
  (m.queues.find? (fun p => p.1 == name)).map (fun p => p.2)

/-- The module-level `add_job` helper: look the queue up by name and, when it
does not exist, create it (default `max_workers = 4`) instead of failing. -/
def moduleAddJob (m : ManagerState) (queueName : String) (spec : JobSpec)
    (now : Nat) : ManagerState × Nat :=
  match getQueue m queueName with
  | some q =>
    let r := addJob q spec now
    (⟨m.queues.map (fun p => if p.1 = queueName then (p.1, r.1) else p)⟩, r.2)
  | none =>
    let r := addJob (initQueue queueName 4) spec now
    (⟨m.queues ++ [(queueName, r.1)]⟩, r.2)

def jobIds (s : QueueState) : List Nat := s.jobs.map (fun j => j.id)

/-- The structural well-formedness facts every reachable `JobQueue` state
satisfies: stored job ids are distinct and below the fresh-id counter, the
dispatch list has no duplicates, every `RUNNING`-status job has a task in
`_running`, and `_running` respects `max_workers`. -/
def QueueInv (s : QueueState) : Prop :=
  (jobIds s).Nodup ∧
  (∀ j ∈ s.jobs, j.id < s.nextId) ∧
  s.queue.Nodup ∧
  (∀ j ∈ s.jobs, j.status = .running → j.id ∈ runningKeys s) ∧
  s.running.length ≤ s.maxWorkers

/-! ## Generic list lemmas -/

theorem foldl_preserve {α β : Type} (P : α → Prop) (f : α → β → α)
    (h : ∀ a b, P a → P (f a b)) :
    ∀ (l : List β) (a : α), P a → P (l.foldl f a)
  | [], _, ha => ha
  | b :: l, a, ha => foldl_preserve P f h l (f a b) (h a b ha)

theorem foldl_preserve_mem {α β : Type} (P : α → Prop) (f : α → β → α) :
    ∀ (l : List β), (∀ a, ∀ b ∈ l, P a → P (f a b)) →
      ∀ (a : α), P a → P (l.foldl f a)
  | [], _, _, ha => ha
  | b :: l, h, a, ha =>
    foldl_preserve_mem P f l
      (fun a2 b2 hb2 => h a2 b2 (List.mem_cons_of_mem b hb2))
      (f a b) (h a b (List.mem_cons_self b l) ha)

theorem find?_append_left {α : Type} (p : α → Bool) (l1 l2 : List α) (a : α)
    (h : l1.find? p = some a) : (l1 ++ l2).find? p = some a := by
  induction l1 with
  | nil => simp at h
  | cons x t ih =>
    by_cases hx : p x = true
    · rw [List.find?_cons_of_pos _ hx] at h
      rw [List.cons_append, List.find?_cons_of_pos _ hx]
      exact h
    · rw [List.find?_cons_of_neg _ (by simpa using hx)] at h
      rw [List.cons_append, List.find?_cons_of_neg _ (by simpa using hx)]
      exact ih h

theorem find?_map_of_pred {α : Type} (l : List α) (g : α → α) (p : α → Bool)
    (hg : ∀ x, p (g x) = p x) :
    (l.map g).find? p = (l.find? p).map g := by
  induction l with
  | nil => simp
  | cons x t ih =>
    by_cases hx : p x = true
    · rw [List.map_cons, List.find?_cons_of_pos _ (by rw [hg]; exact hx),
          List.find?_cons_of_pos _ hx]
      rfl
    · rw [List.map_cons, List.find?_cons_of_neg _ (by rw [hg]; simpa using hx),
          List.find?_cons_of_neg _ (by simpa using hx)]
      exact ih

theorem enqueueInsert_perm (prio : Nat → Nat) (p : Nat) (x : Nat) :
    ∀ (l : List Nat), (enqueueInsert prio p x l).Perm (x :: l)
  | [] => by simp [enqueueInsert]
  | q :: rest => by
    unfold enqueueInsert
    by_cases h : p > prio q
    · simp [h]
    · rw [if_neg h]
      exact ((enqueueInsert_perm prio p x rest).cons q).trans
        (List.Perm.swap x q rest)

theorem mem_enqueueInsert {prio : Nat → Nat} {p x y : Nat} {l : List Nat} :
    y ∈ enqueueInsert prio p x l ↔ y = x ∨ y ∈ l := by
  have := (enqueueInsert_perm prio p x l).mem_iff (a := y)
  simpa using this

theorem nodup_enqueueInsert {prio : Nat → Nat} {p x : Nat} {l : List Nat}
    (hx : x ∉ l) (hl : l.Nodup) : (enqueueInsert prio p x l).Nodup :=
  ((enqueueInsert_perm prio p x l).nodup_iff).mpr (by simp [hl, hx])

/-! ## Facts about the individual operations -/

theorem keys_map_pres (r : List RunEntry) (g : RunEntry → RunEntry)
    (hg : ∀ e, (g e).id = e.id) :
    (r.map g).map (fun e => e.id) = r.map (fun e => e.id) := by
  induction r with
  | nil => rfl
  | cons e t ih => simp [hg, ih]

theorem mem_keys_filter {r : List RunEntry} {k jid : Nat}
    (hk : k ∈ r.map (fun e => e.id)) (hne : k ≠ jid) :
    k ∈ (r.filter (fun e => ¬ e.id = jid)).map (fun e => e.id) := by
  simp only [List.mem_map, List.mem_filter] at hk ⊢
  obtain ⟨e, he, hei⟩ := hk
  exact ⟨e, ⟨he, by simp [hei, hne]⟩, hei⟩

theorem map_id_updateJob (jobs : List Job) (id : Nat) (f : Job → Job)
    (hf : ∀ j, (f j).id = j.id) :
    (updateJob jobs id f).map (fun j => j.id) = jobs.map (fun j => j.id) := by
  induction jobs with
  | nil => rfl
  | cons x t ih =>
    by_cases hx : x.id = id <;> simp [updateJob, hx, hf] at ih ⊢ <;> exact ih

theorem mem_updateJob {jobs : List Job} {id : Nat} {f : Job → Job} {j : Job}
    (h : j ∈ updateJob jobs id f) :
    ∃ j0 ∈ jobs, j = if j0.id = id then f j0 else j0 := by
  simp only [updateJob, List.mem_map] at h
  obtain ⟨j0, hj0, heq⟩ := h
  exact ⟨j0, hj0, heq.symm⟩

theorem findJob_updateJob (jobs : List Job) (id1 id2 : Nat) (f : Job → Job)
    (hf : ∀ j, (f j).id = j.id) :
    findJob (updateJob jobs id1 f) id2
      = (findJob jobs id2).map (fun j => if j.id = id1 then f j else j) := by
  apply find?_map_of_pred
  intro x
  by_cases hx : x.id = id1 <;> simp [hx, hf]

theorem findJob_id {jobs : List Job} {id : Nat} {j : Job}
    (h : findJob jobs id = some j) : j.id = id := by
  have := List.find?_some h
  simpa using this

theorem findJob_mem {jobs : List Job} {id : Nat} {j : Job}
    (h : findJob jobs id = some j) : j ∈ jobs :=
  List.mem_of_find?_eq_some h

theorem findJob_updateJob_self {jobs : List Job} {id : Nat} {j : Job}
    (f : Job → Job) (hf : ∀ j2, (f j2).id = j2.id)
    (h : findJob jobs id = some j) :
    findJob (updateJob jobs id f) id = some (f j) := by
  rw [findJob_updateJob jobs id id f hf, h]
  simp [findJob_id h]

theorem findJob_updateJob_other {jobs : List Job} {id1 id2 : Nat}
    (f : Job → Job) (hf : ∀ j2, (f j2).id = j2.id) (hne : id2 ≠ id1) :
    findJob (updateJob jobs id1 f) id2 = findJob jobs id2 := by
  rw [findJob_updateJob jobs id1 id2 f hf]
  cases h : findJob jobs id2 with
  | none => rfl
  | some j => simp [findJob_id h, hne]

theorem find?_entry_none {r : List RunEntry} {id : Nat}
    (h : id ∉ r.map (fun e => e.id)) :
    r.find? (fun e => e.id == id) = none := by
  rw [List.find?_eq_none]
  intro e he
  simp only [beq_iff_eq]
  intro heq
  exact h (List.mem_map.mpr ⟨e, he, heq⟩)

theorem enqueueJob_fields (s : QueueState) (id : Nat) :
    (enqueueJob s id).jobs = s.jobs ∧ (enqueueJob s id).running = s.running ∧
    (enqueueJob s id).maxWorkers = s.maxWorkers ∧
    (enqueueJob s id).nextId = s.nextId ∧ (enqueueJob s id).stats = s.stats := by
  unfold enqueueJob
  by_cases hmem : id ∈ s.queue
  · rw [if_pos hmem]; exact ⟨rfl, rfl, rfl, rfl, rfl⟩
  · rw [if_neg hmem]
    cases findJob s.jobs id <;> exact ⟨rfl, rfl, rfl, rfl, rfl⟩

theorem enqueueJob_queue_mem {s : QueueState} {id y : Nat}
    (h : y ∈ (enqueueJob s id).queue) : y = id ∨ y ∈ s.queue := by
  unfold enqueueJob at h
  by_cases hmem : id ∈ s.queue
  · rw [if_pos hmem] at h; exact .inr h
  · rw [if_neg hmem] at h
    cases hf : findJob s.jobs id with
    | none => rw [hf] at h; exact .inr h
    | some job =>
      rw [hf] at h
      exact mem_enqueueInsert.mp h

theorem enqueueJob_queue_nodup {s : QueueState} {id : Nat}
    (h : s.queue.Nodup) : (enqueueJob s id).queue.Nodup := by
  unfold enqueueJob
  by_cases hmem : id ∈ s.queue
  · rw [if_pos hmem]; exact h
  · rw [if_neg hmem]
    cases hf : findJob s.jobs id with
    | none => exact h
    | some job => exact nodup_enqueueInsert hmem h

/-! ## Preservation of the queue invariant -/

theorem queueInv_enqueueJob {s : QueueState} (h : QueueInv s) (id : Nat) :
    QueueInv (enqueueJob s id) := by
  obtain ⟨h1, h2, h3, h4, h5⟩ := h
  obtain ⟨hj, hr, hw, hn, hs⟩ := enqueueJob_fields s id
  refine ⟨?_, ?_, enqueueJob_queue_nodup h3, ?_, ?_⟩
  · simpa [jobIds, hj] using h1
  · rw [hj, hn]; exact h2
  · intro j hjm hst
    rw [hj] at hjm
    simpa [runningKeys, hr] using h4 j hjm hst
  · rw [hr, hw]; exact h5

theorem queueInv_append_pending {s : QueueState} (hq : QueueInv s) (j : Job)
    (st : Stats) (hid : j.id = s.nextId) (hst : j.status = .pending) :
    QueueInv { s with jobs := s.jobs ++ [j], nextId := s.nextId + 1, stats := st } := by
  obtain ⟨h1, h2, h3, h4, h5⟩ := hq
  refine ⟨?_, ?_, h3, ?_, h5⟩
  · show (jobIds { s with jobs := s.jobs ++ [j], nextId := s.nextId + 1, stats := st }).Nodup
    simp only [jobIds, List.map_append, List.map_cons, List.map_nil]
    rw [List.nodup_append]
    refine ⟨h1, List.nodup_singleton _, ?_⟩
    intro a ha hb
    simp only [List.mem_singleton] at hb
    simp only [List.mem_map] at ha
    obtain ⟨j0, hj0, hj0id⟩ := ha
    have := h2 j0 hj0
    omega
  · intro j2 hj2
    show j2.id < s.nextId + 1
    rcases List.mem_append.mp hj2 with hm | hm
    · have := h2 j2 hm; omega
    · simp only [List.mem_singleton] at hm
      subst hm; omega
  · intro j2 hj2 hrun
    rcases List.mem_append.mp hj2 with hm | hm
    · exact h4 j2 hm hrun
    · simp only [List.mem_singleton] at hm
      subst hm
      rw [hst] at hrun
      exact absurd hrun (by simp)

theorem queueInv_addJob {s : QueueState} (hq : QueueInv s) (spec : JobSpec)
    (now : Nat) : QueueInv (addJob s spec now).1 := by
  cases hsc : spec.scheduledAt with
  | none =>
    simp only [addJob, hsc]
    exact queueInv_enqueueJob (queueInv_append_pending hq _ _ rfl rfl) _
  | some t =>
    by_cases ht : t ≤ now
    · simp only [addJob, hsc, if_pos ht]
      exact queueInv_enqueueJob (queueInv_append_pending hq _ _ rfl rfl) _
    · simp only [addJob, hsc, if_neg ht]
      exact queueInv_append_pending hq _ _ rfl rfl

theorem queueInv_promote {s : QueueState} (h : QueueInv s) (now : Nat) :
    QueueInv (processScheduledJobs s now) := by
  unfold processScheduledJobs
  refine foldl_preserve QueueInv (promoteStep now) ?_ s.jobs s h
  intro acc job hacc
  unfold promoteStep
  cases job.scheduledAt with
  | none => exact hacc
  | some t =>
    by_cases hc : job.status = .pending ∧ t ≤ now ∧ job.id ∉ acc.queue
    · simp only [if_pos hc]
      exact queueInv_enqueueJob hacc job.id
    · simp only [if_neg hc]
      exact hacc

theorem queueInv_addRunning {s : QueueState} (h : QueueInv s)
    (hw : s.running.length < s.maxWorkers) (id : Nat) :
    QueueInv (addRunning s id) := by
  obtain ⟨h1, h2, h3, h4, h5⟩ := h
  unfold addRunning
  by_cases hk : id ∈ runningKeys s
  · rw [if_pos hk]
    refine ⟨h1, h2, h3, ?_, ?_⟩
    · intro j hj hs
      have hmem := h4 j hj hs
      have hkeys : ∀ e : RunEntry,
          ((fun e => if e.id = id then (⟨id, .created, false⟩ : RunEntry) else e) e).id
            = e.id := by
        intro e; by_cases he : e.id = id <;> simp [he]
      show j.id ∈ runningKeys { s with running := s.running.map (fun e =>
        if e.id = id then (⟨id, .created, false⟩ : RunEntry) else e) }
      simpa [runningKeys, keys_map_pres _ _ hkeys] using hmem
    · show (s.running.map (fun e =>
        if e.id = id then (⟨id, .created, false⟩ : RunEntry) else e)).length ≤ s.maxWorkers
      simpa using Nat.le_of_lt hw
  · rw [if_neg hk]
    refine ⟨h1, h2, h3, ?_, ?_⟩
    · intro j hj hs
      have hmem := h4 j hj hs
      show j.id ∈ runningKeys { s with running := s.running ++ [⟨id, .created, false⟩] }
      simp only [runningKeys, List.map_append] at hmem ⊢
      exact List.mem_append.mpr (.inl hmem)
    · show (s.running ++ [(⟨id, .created, false⟩ : RunEntry)]).length ≤ s.maxWorkers
      simp only [List.length_append, List.length_cons, List.length_nil]
      omega

theorem queueInv_startAux :
    ∀ (fuel : Nat) (s : QueueState), QueueInv s → QueueInv (startAvailableAux fuel s)
  | 0, _, h => h
  | fuel + 1, s, h => by
    obtain ⟨h1, h2, h3, h4, h5⟩ := h
    unfold startAvailableAux
    by_cases hw : s.running.length < s.maxWorkers
    · rw [if_pos hw]
      cases hq : s.queue with
      | nil => exact ⟨h1, h2, h3, h4, h5⟩
      | cons jobId rest =>
        dsimp only
        have h3t : rest.Nodup := by rw [hq] at h3; exact h3.of_cons
        have hInv1 : QueueInv { s with queue := rest } :=
          ⟨h1, h2, h3t, fun j hj hs => h4 j hj hs, h5⟩
        cases hf : findJob s.jobs jobId with
        | none => exact hInv1
        | some job =>
          dsimp only
          by_cases hc : job.status = .cancelled
          · rw [if_pos hc]
            exact queueInv_startAux fuel _ hInv1
          · rw [if_neg hc]
            exact queueInv_startAux fuel _ (queueInv_addRunning hInv1 hw jobId)
    · rw [if_neg hw]
      exact ⟨h1, h2, h3, h4, h5⟩

theorem queueInv_beginExec {s : QueueState} (h : QueueInv s) (id now : Nat) :
    QueueInv (beginExec s id now) := by
  obtain ⟨h1, h2, h3, h4, h5⟩ := h
  unfold beginExec
  cases hfind : s.running.find? (fun e => e.id == id) with
  | none => exact ⟨h1, h2, h3, h4, h5⟩
  | some e =>
    dsimp only
    cases hph : e.phase with
    | started => exact ⟨h1, h2, h3, h4, h5⟩
    | created =>
      dsimp only
      have hkeys : ∀ e2 : RunEntry,
          ((fun e2 => if e2.id = id then { e2 with phase := TaskPhase.started } else e2) e2).id
            = e2.id := by
        intro e2; by_cases he : e2.id = id <;> simp [he]
      refine ⟨?_, ?_, h3, ?_, ?_⟩
      · show ((updateJob s.jobs id (fun j =>
          { j with status := JobStatus.running, startedAt := some now })).map
            (fun j => j.id)).Nodup
        rw [map_id_updateJob s.jobs id
          (fun j => { j with status := JobStatus.running, startedAt := some now })
          (fun j => rfl)]
        exact h1
      · intro j hj
        show j.id < s.nextId
        obtain ⟨j0, hj0, hout⟩ := mem_updateJob hj
        have := h2 j0 hj0
        by_cases hid : j0.id = id
        · rw [if_pos hid] at hout; subst hout; exact this
        · rw [if_neg hid] at hout; subst hout; exact this
      · intro j hj hrun
        obtain ⟨j0, hj0, hout⟩ := mem_updateJob hj
        show j.id ∈ (s.running.map (fun e2 =>
          if e2.id = id then { e2 with phase := TaskPhase.started } else e2)).map
            (fun e => e.id)
        rw [keys_map_pres _ _ hkeys]
        by_cases hid : j0.id = id
        · rw [if_pos hid] at hout
          subst hout
          show j0.id ∈ s.running.map (fun e => e.id)
          rw [hid]
          have heq : e.id = id := by simpa using List.find?_some hfind
          exact heq ▸ List.mem_map.mpr ⟨e, List.mem_of_find?_eq_some hfind, rfl⟩
        · rw [if_neg hid] at hout
          subst hout
          exact h4 _ hj0 hrun
      · show (s.running.map (fun e2 =>
          if e2.id = id then { e2 with phase := TaskPhase.started } else e2)).length
            ≤ s.maxWorkers
        simpa using h5

theorem queueInv_finishShape {s : QueueState} (h : QueueInv s) (jid : Nat)
    (f : Job → Job) (st : Stats)
    (hfid : ∀ j, (f j).id = j.id) (hfst : ∀ j, (f j).status ≠ .running) :
    QueueInv { s with jobs := updateJob s.jobs jid f,
                      running := s.running.filter (fun e => ¬ e.id = jid),
                      stats := st } := by
  obtain ⟨h1, h2, h3, h4, h5⟩ := h
  refine ⟨?_, ?_, h3, ?_, ?_⟩
  · show ((updateJob s.jobs jid f).map (fun j => j.id)).Nodup
    rw [map_id_updateJob _ _ _ hfid]
    exact h1
  · intro j hj
    show j.id < s.nextId
    obtain ⟨j0, hj0, hout⟩ := mem_updateJob hj
    have := h2 j0 hj0
    by_cases hid : j0.id = jid
    · rw [if_pos hid] at hout; subst hout
      rw [hfid j0]; exact this
    · rw [if_neg hid] at hout; subst hout; exact this
  · intro j hj hrun
    obtain ⟨j0, hj0, hout⟩ := mem_updateJob hj
    show j.id ∈ (s.running.filter (fun e => ¬ e.id = jid)).map (fun e => e.id)
    by_cases hid : j0.id = jid
    · rw [if_pos hid] at hout
      subst hout
      exact absurd hrun (hfst j0)
    · rw [if_neg hid] at hout
      subst hout
      exact mem_keys_filter (h4 _ hj0 hrun) hid
  · show (s.running.filter (fun e => ¬ e.id = jid)).length ≤ s.maxWorkers
    exact le_trans (List.length_filter_le _ _) h5

theorem queueInv_finishExec {s : QueueState} (h : QueueInv s) (id : Nat)
    (rn : HandlerRun) (now : Nat) : QueueInv (finishExec s id rn now) := by
  unfold finishExec
  cases hfind : s.running.find? (fun e => e.id == id) with
  | none => exact h
  | some e =>
    dsimp only
    cases hjob : findJob s.jobs id with
    | none => exact h
    | some job =>
      dsimp only
      by_cases hph : e.phase = .created
      · rw [if_pos hph]; exact h
      · rw [if_neg hph]
        by_cases hcr : e.cancelRequested = true
        · rw [if_pos hcr]
          exact queueInv_finishShape h id _ _ (fun j => rfl) (fun j => by simp)
        · rw [if_neg hcr]
          cases hex : excOfRun job rn with
          | none =>
            exact queueInv_finishShape h id _ _ (fun j => rfl) (fun j => by simp)
          | some msg =>
            dsimp only
            by_cases hrc : job.retryCount + 1 ≤ job.maxRetries
            · rw [if_pos hrc]
              exact queueInv_finishShape h id _ _ (fun j => rfl) (fun j => by simp)
            · rw [if_neg hrc]
              exact queueInv_finishShape h id _ _ (fun j => rfl) (fun j => by simp)

theorem queueInv_cancelJob {s : QueueState} (h : QueueInv s) (id : Nat) :
    QueueInv (cancelJob s id).1 := by
  obtain ⟨h1, h2, h3, h4, h5⟩ := h
  unfold cancelJob
  cases hjob : findJob s.jobs id with
  | none => exact ⟨h1, h2, h3, h4, h5⟩
  | some job =>
    dsimp only
    by_cases hp : job.status = .pending
    · rw [if_pos hp]
      dsimp only
      refine ⟨?_, ?_, ?_, ?_, h5⟩
      · show ((updateJob s.jobs id (fun j => { j with status := JobStatus.cancelled })).map
          (fun j => j.id)).Nodup
        rw [map_id_updateJob s.jobs id
          (fun j => { j with status := JobStatus.cancelled }) (fun j => rfl)]
        exact h1
      · intro j hj
        show j.id < s.nextId
        obtain ⟨j0, hj0, hout⟩ := mem_updateJob hj
        have := h2 j0 hj0
        by_cases hid : j0.id = id
        · rw [if_pos hid] at hout; subst hout; exact this
        · rw [if_neg hid] at hout; subst hout; exact this
      · show (if id ∈ s.queue then s.queue.erase id else s.queue).Nodup
        by_cases hq : id ∈ s.queue
        · rw [if_pos hq]; exact h3.erase id
        · rw [if_neg hq]; exact h3
      · intro j hj hrun
        obtain ⟨j0, hj0, hout⟩ := mem_updateJob hj
        show j.id ∈ runningKeys s
        by_cases hid : j0.id = id
        · rw [if_pos hid] at hout
          subst hout
          exact absurd hrun (by simp)
        · rw [if_neg hid] at hout
          subst hout
          exact h4 _ hj0 hrun
    · rw [if_neg hp]
      by_cases hr : job.status = .running
      · rw [if_pos hr]
        by_cases hk : id ∈ runningKeys s
        · rw [if_pos hk]
          dsimp only
          have hkeys : ∀ e : RunEntry,
              ((fun e => if e.id = id then { e with cancelRequested := true } else e) e).id
                = e.id := by
            intro e; by_cases he : e.id = id <;> simp [he]
          refine ⟨?_, ?_, h3, ?_, ?_⟩
          · show ((updateJob s.jobs id (fun j => { j with status := JobStatus.cancelled })).map
              (fun j => j.id)).Nodup
            rw [map_id_updateJob s.jobs id
              (fun j => { j with status := JobStatus.cancelled }) (fun j => rfl)]
            exact h1
          · intro j hj
            show j.id < s.nextId
            obtain ⟨j0, hj0, hout⟩ := mem_updateJob hj
            have := h2 j0 hj0
            by_cases hid : j0.id = id
            · rw [if_pos hid] at hout; subst hout; exact this
            · rw [if_neg hid] at hout; subst hout; exact this
          · intro j hj hrun
            obtain ⟨j0, hj0, hout⟩ := mem_updateJob hj
            show j.id ∈ (setCancelRequested s.running id).map (fun e => e.id)
            rw [setCancelRequested, keys_map_pres _ _ hkeys]
            by_cases hid : j0.id = id
            · rw [if_pos hid] at hout
              subst hout
              exact absurd hrun (by simp)
            · rw [if_neg hid] at hout
              subst hout
              exact h4 _ hj0 hrun
          · show (setCancelRequested s.running id).length ≤ s.maxWorkers
            rw [setCancelRequested]
            simpa using h5
        · rw [if_neg hk]
          exact ⟨h1, h2, h3, h4, h5⟩
      · rw [if_neg hr]
        exact ⟨h1, h2, h3, h4, h5⟩

theorem queueInv_cleanup {s : QueueState} (h : QueueInv s) (now : Nat) :
    QueueInv (cleanupCompletedJobs s now) := by
  obtain ⟨h1, h2, h3, h4, h5⟩ := h
  refine ⟨?_, ?_, h3, ?_, h5⟩
  · show ((s.jobs.filter (fun job => ! shouldRemove now job)).map (fun j => j.id)).Nodup
    exact ((List.filter_sublist s.jobs).map (fun j => j.id)).nodup
      (show (s.jobs.map (fun j => j.id)).Nodup from h1)
  · intro j hj
    show j.id < s.nextId
    exact h2 j (List.mem_of_mem_filter hj)
  · intro j hj hrun
    show j.id ∈ runningKeys s
    exact h4 j (List.mem_of_mem_filter hj) hrun

theorem queueInv_step {s : QueueState} (h : QueueInv s) (op : Op) :
    QueueInv (step s op) := by
  cases op with
  | addJob spec now => exact queueInv_addJob h spec now
  | promote now => exact queueInv_promote h now
  | dispatch => exact queueInv_startAux _ _ h
  | beginExec id now => exact queueInv_beginExec h id now
  | finishExec id rn now => exact queueInv_finishExec h id rn now
  | cancelJob id => exact queueInv_cancelJob h id
  | cleanup now => exact queueInv_cleanup h now

theorem queueInv_runOps {s : QueueState} (h : QueueInv s) (ops : List Op) :
    QueueInv (runOps s ops) :=
  foldl_preserve QueueInv step (fun _ b ha => queueInv_step ha b) ops s h

theorem queueInv_initQueue (name : String) (w : Nat) : QueueInv (initQueue name w) := by
  refine ⟨?_, ?_, ?_, ?_, ?_⟩ <;> simp [initQueue, jobIds, runningKeys]

/-! ## A job outside the queue and the running map is never touched again -/

theorem nodup_id_unique {jobs : List Job}
    (hnd : (jobs.map (fun j => j.id)).Nodup) :
    ∀ {j1 j2 : Job}, j1 ∈ jobs → j2 ∈ jobs → j1.id = j2.id → j1 = j2 := by
  induction jobs with
  | nil => intro j1 j2 h1; simp at h1
  | cons x t ih =>
    intro j1 j2 h1 h2 heq
    simp only [List.map_cons, List.nodup_cons] at hnd
    rcases List.mem_cons.mp h1 with rfl | hm1 <;>
      rcases List.mem_cons.mp h2 with rfl | hm2
    · rfl
    · exact absurd (heq ▸ List.mem_map.mpr ⟨j2, hm2, rfl⟩) hnd.1
    · exact absurd (heq ▸ List.mem_map.mpr ⟨j1, hm1, rfl⟩) hnd.1
    · exact ih hnd.2 hm1 hm2 heq

theorem findJob_eq_none_of_not_mem {jobs : List Job} {id : Nat}
    (h : id ∉ jobs.map (fun j => j.id)) : findJob jobs id = none := by
  rw [findJob, List.find?_eq_none]
  intro j hj
  simp only [beq_iff_eq]
  intro heq
  exact h (List.mem_map.mpr ⟨j, hj, heq⟩)

theorem findJob_filter {jobs : List Job}
    (hnd : (jobs.map (fun j => j.id)).Nodup) {id : Nat} {j : Job}
    (hfind : findJob jobs id = some j) (keep : Job → Bool) :
    findJob (jobs.filter keep) id = if keep j then some j else none := by
  induction jobs with
  | nil => simp [findJob] at hfind
  | cons x t ih =>
    simp only [List.map_cons, List.nodup_cons] at hnd
    by_cases hx : (x.id == id) = true
    · have hxj : x = j := by
        rw [findJob, List.find?_cons, hx] at hfind
        exact Option.some.inj hfind
      subst hxj
      have hxid : x.id = id := by simpa using hx
      have hnone : findJob t id = none := by
        apply findJob_eq_none_of_not_mem
        rw [hxid] at hnd
        exact hnd.1
      by_cases hk : keep x = true
      · rw [List.filter_cons_of_pos hk, if_pos hk]
        rw [findJob, List.find?_cons, hx]
      · rw [List.filter_cons_of_neg (by simpa using hk), if_neg hk]
        rw [findJob_eq_none_of_not_mem]
        intro hmem
        simp only [List.mem_map] at hmem
        obtain ⟨j2, hj2, hj2id⟩ := hmem
        have : j2 ∈ t := List.mem_of_mem_filter hj2
        rw [hxid] at hnd
        exact hnd.1 (List.mem_map.mpr ⟨j2, this, hj2id⟩)
    · rw [findJob, List.find?_cons_of_neg _ (by simpa using hx)] at hfind
      have ihr := ih hnd.2 hfind
      by_cases hk : keep x = true
      · rw [List.filter_cons_of_pos hk, findJob,
            List.find?_cons_of_neg _ (by simpa using hx)]
        exact ihr
      · rw [List.filter_cons_of_neg (by simpa using hk)]
        exact ihr

theorem keys_filter_subset {r : List RunEntry} {k jid : Nat}
    (h : k ∈ (r.filter (fun e => ¬ e.id = jid)).map (fun e => e.id)) :
    k ∈ r.map (fun e => e.id) := by
  simp only [List.mem_map, List.mem_filter] at h ⊢
  obtain ⟨e, ⟨he, _⟩, hek⟩ := h
  exact ⟨e, he, hek⟩

theorem addRunning_jobs (t : QueueState) (jid : Nat) :
    (addRunning t jid).jobs = t.jobs := by
  unfold addRunning
  by_cases hk : jid ∈ runningKeys t
  · rw [if_pos hk]
  · rw [if_neg hk]

theorem addRunning_queue (t : QueueState) (jid : Nat) :
    (addRunning t jid).queue = t.queue := by
  unfold addRunning
  by_cases hk : jid ∈ runningKeys t
  · rw [if_pos hk]
  · rw [if_neg hk]

theorem keys_addRunning {t : QueueState} {jid k : Nat}
    (h : k ∈ runningKeys (addRunning t jid)) : k = jid ∨ k ∈ runningKeys t := by
  unfold addRunning at h
  by_cases hk : jid ∈ runningKeys t
  · rw [if_pos hk] at h
    have hkeys : ∀ e : RunEntry,
        ((fun e => if e.id = jid then (⟨jid, TaskPhase.created, false⟩ : RunEntry) else e) e).id
          = e.id := by
      intro e; by_cases h0 : e.id = jid <;> simp [h0]
    refine .inr ?_
    have h2 : k ∈ (t.running.map (fun e =>
        if e.id = jid then (⟨jid, TaskPhase.created, false⟩ : RunEntry) else e)).map
          (fun e => e.id) := h
    rw [keys_map_pres _ _ hkeys] at h2
    exact h2
  · rw [if_neg hk] at h
    simp only [runningKeys, List.map_append, List.mem_append] at h
    rcases h with hm | hm
    · exact .inr hm
    · simp only [List.map_cons, List.map_nil, List.mem_singleton] at hm
      exact .inl hm

theorem startAux_jobs : ∀ (fuel : Nat) (t : QueueState),
    (startAvailableAux fuel t).jobs = t.jobs
  | 0, _ => rfl
  | fuel + 1, t => by
    unfold startAvailableAux
    by_cases hw : t.running.length < t.maxWorkers
    · rw [if_pos hw]
      cases hq : t.queue with
      | nil => rfl
      | cons jobId rest =>
        dsimp only
        cases hf : findJob t.jobs jobId with
        | none => rfl
        | some job =>
          dsimp only
          by_cases hc : job.status = .cancelled
          · rw [if_pos hc, startAux_jobs fuel]
          · rw [if_neg hc, startAux_jobs fuel, addRunning_jobs]
    · rw [if_neg hw]

theorem startAux_frozen (id : Nat) : ∀ (fuel : Nat) (t : QueueState),
    id ∉ t.queue → id ∉ runningKeys t →
    id ∉ (startAvailableAux fuel t).queue ∧
      id ∉ runningKeys (startAvailableAux fuel t)
  | 0, _, hq, hk => ⟨hq, hk⟩
  | fuel + 1, t, hq, hk => by
    unfold startAvailableAux
    by_cases hw : t.running.length < t.maxWorkers
    · rw [if_pos hw]
      cases hqe : t.queue with
      | nil => exact ⟨hq, hk⟩
      | cons jobId rest =>
        dsimp only
        rw [hqe] at hq
        have hqr : id ∉ rest := fun hm => hq (List.mem_cons_of_mem _ hm)
        have hne : id ≠ jobId := fun he => hq (he ▸ List.mem_cons_self _ _)
        cases hf : findJob t.jobs jobId with
        | none => exact ⟨hqr, hk⟩
        | some job =>
          dsimp only
          by_cases hc : job.status = .cancelled
          · rw [if_pos hc]
            exact startAux_frozen id fuel _ hqr hk
          · rw [if_neg hc]
            refine startAux_frozen id fuel _ ?_ ?_
            · rw [addRunning_queue]; exact hqr
            · intro hm
              rcases keys_addRunning hm with he | hm2
              · exact hne he
              · exact hk hm2
    · rw [if_neg hw]
      exact ⟨hq, hk⟩

theorem frozen_enqueueJob {t : QueueState} {id : Nat} {j : Job} (k : Nat)
    (hj : getJob t id = some j) (hq : id ∉ t.queue) (hk : id ∉ runningKeys t)
    (hne : id ≠ k) :
    getJob (enqueueJob t k) id = some j ∧ id ∉ (enqueueJob t k).queue ∧
      id ∉ runningKeys (enqueueJob t k) := by
  obtain ⟨hjobs, hrun, _, _, _⟩ := enqueueJob_fields t k
  refine ⟨?_, ?_, ?_⟩
  · show findJob (enqueueJob t k).jobs id = some j
    rw [hjobs]; exact hj
  · intro hmem
    rcases enqueueJob_queue_mem hmem with he | hm
    · exact hne he
    · exact hq hm
  · show id ∉ (enqueueJob t k).running.map (fun e => e.id)
    rw [hrun]; exact hk

theorem frozen_addJob {s : QueueState} {id : Nat} {j : Job} (spec : JobSpec)
    (now : Nat) (hj : getJob s id = some j) (hq : id ∉ s.queue)
    (hk : id ∉ runningKeys s) (hlt : id < s.nextId) :
    getJob (addJob s spec now).1 id = some j ∧ id ∉ (addJob s spec now).1.queue ∧
      id ∉ runningKeys (addJob s spec now).1 := by
  have hne : id ≠ s.nextId := by omega
  cases hsc : spec.scheduledAt with
  | none =>
    simp only [addJob, hsc]
    exact frozen_enqueueJob _ (find?_append_left _ _ _ _ hj) hq hk hne
  | some t =>
    by_cases ht : t ≤ now
    · simp only [addJob, hsc, if_pos ht]
      exact frozen_enqueueJob _ (find?_append_left _ _ _ _ hj) hq hk hne
    · simp only [addJob, hsc, if_neg ht]
      exact ⟨find?_append_left _ _ _ _ hj, hq, hk⟩

theorem promoteStep_frozen {s acc : QueueState} {id : Nat} {j : Job} {now : Nat}
    (h1 : (jobIds s).Nodup) (hjmem : j ∈ s.jobs) (hjid : j.id = id)
    (hp : j.status ≠ .pending) {job : Job} (hjob : job ∈ s.jobs)
    (hacc : acc.jobs = s.jobs ∧ acc.running = s.running ∧ id ∉ acc.queue) :
    (promoteStep now acc job).jobs = s.jobs ∧
      (promoteStep now acc job).running = s.running ∧
      id ∉ (promoteStep now acc job).queue := by
  obtain ⟨haj, har, haq⟩ := hacc
  unfold promoteStep
  cases hsc : job.scheduledAt with
  | none => exact ⟨haj, har, haq⟩
  | some t =>
    dsimp only
    by_cases hcond : job.status = .pending ∧ t ≤ now ∧ job.id ∉ acc.queue
    · rw [if_pos hcond]
      obtain ⟨hjobs2, hrun2, _, _, _⟩ := enqueueJob_fields acc job.id
      refine ⟨by rw [hjobs2, haj], by rw [hrun2, har], ?_⟩
      intro hmem
      rcases enqueueJob_queue_mem hmem with he | hm
      · have hjj : job = j := nodup_id_unique h1 hjob hjmem (by rw [← he, hjid])
        exact hp (hjj ▸ hcond.1)
      · exact haq hm
    · rw [if_neg hcond]
      exact ⟨haj, har, haq⟩

theorem frozen_promote {s : QueueState} {id : Nat} {j : Job} (now : Nat)
    (h1 : (jobIds s).Nodup) (hj : getJob s id = some j)
    (hp : j.status ≠ .pending) (hq : id ∉ s.queue) (hk : id ∉ runningKeys s) :
    getJob (processScheduledJobs s now) id = some j ∧
      id ∉ (processScheduledJobs s now).queue ∧
      id ∉ runningKeys (processScheduledJobs s now) := by
  have hjmem := findJob_mem hj
  have hjid := findJob_id hj
  unfold processScheduledJobs
  have main := foldl_preserve_mem
    (fun acc : QueueState =>
      acc.jobs = s.jobs ∧ acc.running = s.running ∧ id ∉ acc.queue)
    (promoteStep now) s.jobs
    (fun acc job hjob hacc => promoteStep_frozen h1 hjmem hjid hp hjob hacc)
    s ⟨rfl, rfl, hq⟩
  obtain ⟨hjobs, hrun, hqf⟩ := main
  refine ⟨?_, hqf, ?_⟩
  · show findJob (s.jobs.foldl (promoteStep now) s).jobs id = some j
    rw [hjobs]; exact hj
  · show id ∉ (s.jobs.foldl (promoteStep now) s).running.map (fun e => e.id)
    rw [hrun]; exact hk

theorem frozen_step {s : QueueState} {id : Nat} {j : Job} (op : Op)
    (hInv : QueueInv s) (hj : getJob s id = some j)
    (hp : j.status ≠ .pending) (hr : j.status ≠ .running)
    (hc : isTerminal j.status = false ∨ j.completedAt = none)
    (hq : id ∉ s.queue) (hk : id ∉ runningKeys s) :
    getJob (step s op) id = some j ∧ id ∉ (step s op).queue ∧
      id ∉ runningKeys (step s op) := by
  obtain ⟨h1, h2, h3, h4, h5⟩ := hInv
  have hjid : j.id = id := findJob_id hj
  have hjmem : j ∈ s.jobs := findJob_mem hj
  have hidlt : id < s.nextId := hjid ▸ h2 j hjmem
  cases op with
  | addJob spec now =>
    exact frozen_addJob spec now hj hq hk hidlt
  | promote now =>
    exact frozen_promote now h1 hj hp hq hk
  | dispatch =>
    refine ⟨?_, (startAux_frozen id _ s hq hk).1, (startAux_frozen id _ s hq hk).2⟩
    show findJob (startAvailableAux s.queue.length s).jobs id = some j
    rw [startAux_jobs]
    exact hj
  | beginExec jid now =>
    simp only [step]
    by_cases hjidq : jid = id
    · subst hjidq
      unfold beginExec
      rw [find?_entry_none hk]
      exact ⟨hj, hq, hk⟩
    · have hne : id ≠ jid := fun he => hjidq he.symm
      unfold beginExec
      cases hfind : s.running.find? (fun e => e.id == jid) with
      | none => exact ⟨hj, hq, hk⟩
      | some e =>
        dsimp only
        cases e.phase with
        | started => exact ⟨hj, hq, hk⟩
        | created =>
          dsimp only
          have hkeys : ∀ e2 : RunEntry,
              ((fun e2 => if e2.id = jid then { e2 with phase := TaskPhase.started } else e2) e2).id
                = e2.id := by
            intro e2; by_cases he : e2.id = jid <;> simp [he]
          refine ⟨?_, hq, ?_⟩
          · show findJob (updateJob s.jobs jid (fun j2 =>
              { j2 with status := JobStatus.running, startedAt := some now })) id = some j
            rw [findJob_updateJob_other (fun j2 =>
              { j2 with status := JobStatus.running, startedAt := some now })
              (fun j2 => rfl) hne]
            exact hj
          · show id ∉ (s.running.map (fun e2 =>
              if e2.id = jid then { e2 with phase := TaskPhase.started } else e2)).map
                (fun e2 => e2.id)
            rw [keys_map_pres _ _ hkeys]
            exact hk
  | finishExec jid rn now =>
    simp only [step]
    by_cases hjidq : jid = id
    · subst hjidq
      unfold finishExec
      rw [find?_entry_none hk]
      exact ⟨hj, hq, hk⟩
    · have hne : id ≠ jid := fun he => hjidq he.symm
      unfold finishExec
      cases hfind : s.running.find? (fun e => e.id == jid) with
      | none => exact ⟨hj, hq, hk⟩
      | some e =>
        dsimp only
        cases hjob2 : findJob s.jobs jid with
        | none => exact ⟨hj, hq, hk⟩
        | some job =>
          dsimp only
          by_cases hph : e.phase = .created
          · rw [if_pos hph]
            exact ⟨hj, hq, hk⟩
          · rw [if_neg hph]
            have leaf : ∀ (f : Job → Job) (st : Stats), (∀ x, (f x).id = x.id) →
                getJob (removeRunning
                  { s with jobs := updateJob s.jobs jid f, stats := st } jid) id = some j ∧
                id ∉ (removeRunning
                  { s with jobs := updateJob s.jobs jid f, stats := st } jid).queue ∧
                id ∉ runningKeys (removeRunning
                  { s with jobs := updateJob s.jobs jid f, stats := st } jid) := by
              intro f st hf
              refine ⟨?_, hq, ?_⟩
              · show findJob (updateJob s.jobs jid f) id = some j
                rw [findJob_updateJob_other f hf hne]
                exact hj
              · show id ∉ (s.running.filter (fun e2 => ¬ e2.id = jid)).map
                  (fun e2 => e2.id)
                intro hmem
                exact hk (keys_filter_subset hmem)
            by_cases hcr : e.cancelRequested = true
            · rw [if_pos hcr]
              exact leaf _ _ (fun x => rfl)
            · rw [if_neg hcr]
              cases excOfRun job rn with
              | none => exact leaf _ _ (fun x => rfl)
              | some msg =>
                dsimp only
                by_cases hrc : job.retryCount + 1 ≤ job.maxRetries
                · rw [if_pos hrc]
                  exact leaf _ _ (fun x => rfl)
                · rw [if_neg hrc]
                  exact leaf _ _ (fun x => rfl)
  | cancelJob jid =>
    simp only [step]
    unfold cancelJob
    by_cases hjidq : jid = id
    · subst hjidq
      rw [show findJob s.jobs jid = some j from hj]
      dsimp only
      rw [if_neg hp, if_neg hr]
      exact ⟨hj, hq, hk⟩
    · have hne : id ≠ jid := fun he => hjidq he.symm
      cases hfind : findJob s.jobs jid with
      | none => exact ⟨hj, hq, hk⟩
      | some job =>
        dsimp only
        by_cases hpj : job.status = .pending
        · rw [if_pos hpj]
          dsimp only
          refine ⟨?_, ?_, hk⟩
          · show findJob (updateJob s.jobs jid
              (fun j2 => { j2 with status := JobStatus.cancelled })) id = some j
            rw [findJob_updateJob_other
              (fun j2 => { j2 with status := JobStatus.cancelled }) (fun x => rfl) hne]
            exact hj
          · show id ∉ (if jid ∈ s.queue then s.queue.erase jid else s.queue)
            by_cases hqj : jid ∈ s.queue
            · rw [if_pos hqj]
              intro hmem
              exact hq ((List.erase_sublist jid s.queue).subset hmem)
            · rw [if_neg hqj]
              exact hq
        · rw [if_neg hpj]
          by_cases hrj : job.status = .running
          · rw [if_pos hrj]
            by_cases hkj : jid ∈ runningKeys s
            · rw [if_pos hkj]
              dsimp only
              have hkeys : ∀ e : RunEntry,
                  ((fun e => if e.id = jid then { e with cancelRequested := true } else e) e).id
                    = e.id := by
                intro e; by_cases he : e.id = jid <;> simp [he]
              refine ⟨?_, hq, ?_⟩
              · show findJob (updateJob s.jobs jid
                  (fun j2 => { j2 with status := JobStatus.cancelled })) id = some j
                rw [findJob_updateJob_other
                  (fun j2 => { j2 with status := JobStatus.cancelled }) (fun x => rfl) hne]
                exact hj
              · show id ∉ (setCancelRequested s.running jid).map (fun e2 => e2.id)
                rw [setCancelRequested, keys_map_pres _ _ hkeys]
                exact hk
            · rw [if_neg hkj]
              exact ⟨hj, hq, hk⟩
          · rw [if_neg hrj]
            exact ⟨hj, hq, hk⟩
  | cleanup now =>
    simp only [step]
    have hrm : shouldRemove now j = false := by
      rcases hc with hct | hca
      · unfold shouldRemove
        rw [hct, Bool.false_and]
      · unfold shouldRemove
        rw [hca, Bool.and_false]
    refine ⟨?_, hq, hk⟩
    show findJob (s.jobs.filter (fun job => ! shouldRemove now job)) id = some j
    rw [findJob_filter h1 hj (fun job => ! shouldRemove now job), hrm]
    simp

theorem frozen_runOps {s : QueueState} {id : Nat} {j : Job} (ops : List Op)
    (hInv : QueueInv s) (hj : getJob s id = some j)
    (hp : j.status ≠ .pending) (hr : j.status ≠ .running)
    (hc : isTerminal j.status = false ∨ j.completedAt = none)
    (hq : id ∉ s.queue) (hk : id ∉ runningKeys s) :
    getJob (runOps s ops) id = some j ∧ id ∉ (runOps s ops).queue ∧
      id ∉ runningKeys (runOps s ops) := by
  induction ops generalizing s with
  | nil => exact ⟨hj, hq, hk⟩
  | cons op rest ih =>
    obtain ⟨hj2, hq2, hk2⟩ := frozen_step op hInv hj hp hr hc hq hk
    exact ih (queueInv_step hInv op) hj2 hq2 hk2

/-! ## `max_workers` is never modified -/

theorem startAux_maxWorkers : ∀ (fuel : Nat) (t : QueueState),
    (startAvailableAux fuel t).maxWorkers = t.maxWorkers
  | 0, _ => rfl
  | fuel + 1, t => by
    unfold startAvailableAux
    by_cases hw : t.running.length < t.maxWorkers
    · rw [if_pos hw]
      cases hq : t.queue with
      | nil => rfl
      | cons jobId rest =>
        dsimp only
        cases hf : findJob t.jobs jobId with
        | none => rfl
        | some job =>
          dsimp only
          by_cases hc : job.status = .cancelled
          · rw [if_pos hc, startAux_maxWorkers fuel]
          · rw [if_neg hc, startAux_maxWorkers fuel]
            unfold addRunning
            by_cases hk : jobId ∈ runningKeys { t with queue := rest }
            · rw [if_pos hk]
            · rw [if_neg hk]
    · rw [if_neg hw]

theorem step_maxWorkers (s : QueueState) (op : Op) :
    (step s op).maxWorkers = s.maxWorkers := by
  cases op with
  | addJob spec now =>
    show (addJob s spec now).1.maxWorkers = s.maxWorkers
    cases hsc : spec.scheduledAt with
    | none =>
      simp only [addJob, hsc]
      exact (enqueueJob_fields _ _).2.2.1
    | some t =>
      by_cases ht : t ≤ now
      · simp only [addJob, hsc, if_pos ht]
        exact (enqueueJob_fields _ _).2.2.1
      · simp only [addJob, hsc, if_neg ht]
  | promote now =>
    show (processScheduledJobs s now).maxWorkers = s.maxWorkers
    unfold processScheduledJobs
    refine foldl_preserve (fun acc : QueueState => acc.maxWorkers = s.maxWorkers)
      (promoteStep now) ?_ s.jobs s rfl
    intro acc job hacc
    unfold promoteStep
    cases job.scheduledAt with
    | none => exact hacc
    | some t =>
      by_cases hcond : job.status = .pending ∧ t ≤ now ∧ job.id ∉ acc.queue
      · simp only [if_pos hcond]
        rw [(enqueueJob_fields acc job.id).2.2.1]
        exact hacc
      · simp only [if_neg hcond]
        exact hacc
  | dispatch => exact startAux_maxWorkers _ _
  | beginExec jid now =>
    show (beginExec s jid now).maxWorkers = s.maxWorkers
    unfold beginExec
    cases hfind : s.running.find? (fun e => e.id == jid) with
    | none => rfl
    | some e =>
      dsimp only
      cases e.phase with
      | started => rfl
      | created => rfl
  | finishExec jid rn now =>
    show (finishExec s jid rn now).maxWorkers = s.maxWorkers
    unfold finishExec
    cases hfind : s.running.find? (fun e => e.id == jid) with
    | none => rfl
    | some e =>
      dsimp only
      cases hjob : findJob s.jobs jid with
      | none => rfl
      | some job =>
        dsimp only
        by_cases hph : e.phase = .created
        · rw [if_pos hph]
        · rw [if_neg hph]
          by_cases hcr : e.cancelRequested = true
          · rw [if_pos hcr]; rfl
          · rw [if_neg hcr]
            cases excOfRun job rn with
            | none => rfl
            | some msg =>
              dsimp only
              by_cases hrc : job.retryCount + 1 ≤ job.maxRetries
              · rw [if_pos hrc]; rfl
              · rw [if_neg hrc]; rfl
  | cancelJob jid =>
    show (cancelJob s jid).1.maxWorkers = s.maxWorkers
    unfold cancelJob
    cases hfind : findJob s.jobs jid with
    | none => rfl
    | some job =>
      dsimp only
      by_cases hp : job.status = .pending
      · rw [if_pos hp]
      · rw [if_neg hp]
        by_cases hr : job.status = .running
        · rw [if_pos hr]
          by_cases hk : jid ∈ runningKeys s
          · rw [if_pos hk]
          · rw [if_neg hk]
        · rw [if_neg hr]
  | cleanup now => rfl

theorem runOps_maxWorkers (s : QueueState) (ops : List Op) :
    (runOps s ops).maxWorkers = s.maxWorkers := by
  induction ops generalizing s with
  | nil => rfl
  | cons op rest ih =>
    rw [show runOps s (op :: rest) = runOps (step s op) rest from rfl, ih,
        step_maxWorkers]

/-! ## The concurrency bound -/

theorem countRunning_le_of_inv {s : QueueState} (h : QueueInv s) :
    (s.jobs.filter (fun j => j.status == JobStatus.running)).length ≤ s.maxWorkers := by
  obtain ⟨h1, _, _, h4, h5⟩ := h
  have hnd : ((s.jobs.filter (fun j => j.status == JobStatus.running)).map
      (fun j => j.id)).Nodup :=
    ((List.filter_sublist s.jobs).map (fun j => j.id)).nodup
      (show (s.jobs.map (fun j => j.id)).Nodup from h1)
  have hsub : (s.jobs.filter (fun j => j.status == JobStatus.running)).map
      (fun j => j.id) ⊆ runningKeys s := by
    intro k hkm
    simp only [List.mem_map] at hkm
    obtain ⟨j, hjf, hjk⟩ := hkm
    have hjm : j ∈ s.jobs := List.mem_of_mem_filter hjf
    have hst : j.status = .running := by
      have := List.of_mem_filter hjf
      simpa using this
    exact hjk ▸ h4 j hjm hst
  calc (s.jobs.filter (fun j => j.status == JobStatus.running)).length
      = ((s.jobs.filter (fun j => j.status == JobStatus.running)).map
          (fun j => j.id)).length := by simp
    _ ≤ (runningKeys s).length := (List.subperm_of_subset hnd hsub).length_le
    _ = s.running.length := by simp [runningKeys]
    _ ≤ s.maxWorkers := h5

/-! ## Sortedness and FIFO stability of the dispatch list -/

/-- One `_enqueue_job` call at the dispatch-list level: `prio` is the
priority-value map backing `self._jobs`, and the inserted id's own priority
is `prio id` (as read off its stored job). -/
def enqueueStep (prio : Nat → Nat) (q : List Nat) (id : Nat) : List Nat :=
  if id ∈ q then q else enqueueInsert prio (prio id) id q

/-- The dispatch list obtained from a sequence of `_enqueue_job` calls,
starting from the empty list. -/
def buildQueueList (prio : Nat → Nat) (subs : List Nat) : List Nat :=
  subs.foldl (enqueueStep prio) []

theorem enqueueJob_queue_eq (s : QueueState) (jobId : Nat) (job : Job)
    (hfind : findJob s.jobs jobId = some job) :
    (enqueueJob s jobId).queue = enqueueStep (prioOf s.jobs) s.queue jobId := by
  unfold enqueueJob enqueueStep
  by_cases hm : jobId ∈ s.queue
  · rw [if_pos hm, if_pos hm]
  · rw [if_neg hm, if_neg hm, hfind]
    dsimp only
    have hp : prioOf s.jobs jobId = job.priority.value := by simp [prioOf, hfind]
    rw [hp]

theorem enqueueInsert_pairwise (prio : Nat → Nat) (x : Nat) :
    ∀ (l : List Nat), l.Pairwise (fun a b => prio b ≤ prio a) →
      (enqueueInsert prio (prio x) x l).Pairwise (fun a b => prio b ≤ prio a)
  | [], _ => by simp [enqueueInsert]
  | q :: rest, hp => by
    unfold enqueueInsert
    rcases List.pairwise_cons.mp hp with ⟨hq, hrest⟩
    by_cases h : prio x > prio q
    · rw [if_pos h]
      refine List.pairwise_cons.mpr ⟨?_, hp⟩
      intro b hb
      rcases List.mem_cons.mp hb with rfl | hm
      · omega
      · have := hq b hm; omega
    · rw [if_neg h]
      refine List.pairwise_cons.mpr ⟨?_, enqueueInsert_pairwise prio x rest hrest⟩
      intro b hb
      rcases mem_enqueueInsert.mp hb with rfl | hm
      · omega
      · exact hq b hm

theorem filter_eq_nil_of_lt (prio : Nat → Nat) (P : Nat) (l : List Nat)
    (hlt : ∀ y ∈ l, prio y < P) :
    l.filter (fun y => prio y == P) = [] := by
  rw [List.filter_eq_nil_iff]
  intro a ha
  have := hlt a ha
  simp only [beq_iff_eq]
  omega

theorem filter_enqueueInsert (prio : Nat → Nat) (x : Nat) (p : Nat) :
    ∀ (l : List Nat), l.Pairwise (fun a b => prio b ≤ prio a) →
      (enqueueInsert prio (prio x) x l).filter (fun y => prio y == p)
        = if prio x == p then l.filter (fun y => prio y == p) ++ [x]
          else l.filter (fun y => prio y == p)
  | [], _ => by
    by_cases hx : (prio x == p) = true
    · rw [if_pos hx]
      simp [enqueueInsert, List.filter_cons, hx]
    · rw [if_neg hx]
      simp only [enqueueInsert]
      rw [List.filter_cons, if_neg hx]
  | q :: rest, hp => by
    unfold enqueueInsert
    rcases List.pairwise_cons.mp hp with ⟨hq, hrest⟩
    by_cases h : prio x > prio q
    · rw [if_pos h]
      have hnil : (q :: rest).filter (fun y => prio y == prio x) = [] := by
        apply filter_eq_nil_of_lt
        intro y hy
        rcases List.mem_cons.mp hy with rfl | hm
        · omega
        · have := hq y hm; omega
      by_cases hx : (prio x == p) = true
      · have hpx : prio x = p := by simpa using hx
        rw [if_pos hx, List.filter_cons, if_pos hx]
        rw [← hpx, hnil]
        rfl
      · rw [if_neg hx, List.filter_cons, if_neg hx]
    · rw [if_neg h]
      rw [List.filter_cons, List.filter_cons]
      have ih := filter_enqueueInsert prio x p rest hrest
      by_cases hqp : (prio q == p) = true
      · rw [if_pos hqp, if_pos hqp, ih]
        by_cases hx : (prio x == p) = true
        · rw [if_pos hx, if_pos hx]
          rfl
        · rw [if_neg hx, if_neg hx]
      · rw [if_neg hqp, if_neg hqp, ih]

theorem buildQueue_go (prio : Nat → Nat) (p : Nat) :
    ∀ (subs q : List Nat),
      q.Pairwise (fun a b => prio b ≤ prio a) →
      (∀ y ∈ subs, y ∉ q) → subs.Nodup →
      (subs.foldl (enqueueStep prio) q).Pairwise (fun a b => prio b ≤ prio a) ∧
      (subs.foldl (enqueueStep prio) q).filter (fun y => prio y == p)
        = q.filter (fun y => prio y == p) ++ subs.filter (fun y => prio y == p)
  | [], q, hq, _, _ => ⟨hq, by simp⟩
  | x :: rest, q, hq, hdisj, hnd => by
    have hxq : x ∉ q := hdisj x (List.mem_cons_self x rest)
    have hstep : enqueueStep prio q x = enqueueInsert prio (prio x) x q := by
      unfold enqueueStep
      rw [if_neg hxq]
    have hnd2 := List.nodup_cons.mp hnd
    have hdisj2 : ∀ y ∈ rest, y ∉ enqueueInsert prio (prio x) x q := by
      intro y hy hmem
      rcases mem_enqueueInsert.mp hmem with rfl | hm
      · exact hnd2.1 hy
      · exact hdisj y (List.mem_cons_of_mem x hy) hm
    have ih := buildQueue_go prio p rest (enqueueInsert prio (prio x) x q)
      (enqueueInsert_pairwise prio x q hq) hdisj2 hnd2.2
    rw [show (x :: rest).foldl (enqueueStep prio) q
        = rest.foldl (enqueueStep prio) (enqueueStep prio q x) from rfl, hstep]
    refine ⟨ih.1, ?_⟩
    rw [ih.2, filter_enqueueInsert prio x p q hq, List.filter_cons]
    by_cases hx : (prio x == p) = true
    · rw [if_pos hx, if_pos hx, List.append_assoc, List.singleton_append]
    · rw [if_neg hx, if_neg hx]

theorem buildQueueList_sorted_and_stable (prio : Nat → Nat) (p : Nat)
    (subs : List Nat) (hnd : subs.Nodup) :
    (buildQueueList prio subs).Pairwise (fun a b => prio b ≤ prio a) ∧
      (buildQueueList prio subs).filter (fun y => prio y == p)
        = subs.filter (fun y => prio y == p) := by
  have h := buildQueue_go prio p subs [] (by simp) (by simp) hnd
  exact ⟨h.1, by simpa using h.2⟩

/-! ## Cleanup, timeout, and add_job characterisations -/

theorem find?_append_right {α : Type} (p : α → Bool) (l1 l2 : List α)
    (h : l1.find? p = none) : (l1 ++ l2).find? p = l2.find? p := by
  induction l1 with
  | nil => simp
  | cons x t ih =>
    rw [List.find?_cons] at h
    cases hx : p x with
    | true => rw [hx] at h; exact absurd h (by simp)
    | false =>
      rw [hx] at h
      rw [List.cons_append, List.find?_cons, hx]
      exact ih h

theorem cleanup_getJob {s : QueueState} (h1 : (jobIds s).Nodup) (now id : Nat) :
    getJob (cleanupCompletedJobs s now) id
      = (getJob s id).bind (fun j => if shouldRemove now j then none else some j) := by
  cases hj : getJob s id with
  | none =>
    show findJob (s.jobs.filter (fun job => ! shouldRemove now job)) id = none
    apply findJob_eq_none_of_not_mem
    intro hmem
    simp only [List.mem_map] at hmem
    obtain ⟨j, hjf, hjid⟩ := hmem
    have hnm := List.find?_eq_none.mp hj j (List.mem_of_mem_filter hjf)
    simp only [beq_iff_eq] at hnm
    exact hnm hjid
  | some j =>
    show findJob (s.jobs.filter (fun job => ! shouldRemove now job)) id = _
    rw [findJob_filter h1 hj (fun job => ! shouldRemove now job)]
    cases hrm : shouldRemove now j <;> simp [hrm]

theorem timeout_behaves_as_error {s : QueueState} {id : Nat} {job : Job} {t : Nat}
    (rn : HandlerRun) (now : Nat) (hjob : findJob s.jobs id = some job)
    (ht : job.timeout = some t) (hd : t < rn.duration) :
    finishExec s id rn now = finishExec s id ⟨some "", rn.value, 0⟩ now := by
  unfold finishExec
  cases hfind : s.running.find? (fun e => e.id == id) with
  | none => rfl
  | some e =>
    dsimp only
    rw [hjob]
    dsimp only
    have hex1 : excOfRun job rn = some "" := by
      unfold excOfRun
      rw [ht]
      dsimp only
      rw [if_pos (show rn.duration > t from by omega)]
    have hex2 : excOfRun job ⟨some "", rn.value, 0⟩ = some "" := by
      unfold excOfRun
      rw [ht]
      dsimp only
      rw [if_neg (show ¬ ((0 : Nat) > t) from by omega)]
    rw [hex1, hex2]

theorem findJob_append_right {l1 l2 : List Job} {id : Nat}
    (h : findJob l1 id = none) : findJob (l1 ++ l2) id = findJob l2 id :=
  find?_append_right _ _ _ h

theorem getJob_addJob {s : QueueState} (spec : JobSpec) (now : Nat)
    (h2 : ∀ j ∈ s.jobs, j.id < s.nextId) :
    getJob (addJob s spec now).1 (addJob s spec now).2
      = some { id := s.nextId, name := spec.name, status := .pending,
               priority := spec.priority, createdAt := now, startedAt := none,
               completedAt := none, result := none, error := none, retryCount := 0,
               maxRetries := spec.maxRetries, retryDelay := spec.retryDelay,
               scheduledAt := spec.scheduledAt, timeout := spec.timeout } := by
  have hnone : findJob s.jobs s.nextId = none := by
    apply findJob_eq_none_of_not_mem
    intro hmem
    simp only [List.mem_map] at hmem
    obtain ⟨j, hj, hjid⟩ := hmem
    have := h2 j hj
    omega
  cases hsc : spec.scheduledAt with
  | none =>
    simp only [addJob, hsc]
    show findJob (enqueueJob _ s.nextId).jobs s.nextId = _
    rw [(enqueueJob_fields _ _).1]
    dsimp only
    rw [findJob_append_right hnone]
    simp [findJob, List.find?]
  | some t =>
    by_cases htle : t ≤ now
    · simp only [addJob, hsc, if_pos htle]
      show findJob (enqueueJob _ s.nextId).jobs s.nextId = _
      rw [(enqueueJob_fields _ _).1]
      dsimp only
      rw [findJob_append_right hnone]
      simp [findJob, List.find?]
    · simp only [addJob, hsc, if_neg htle]
      unfold getJob
      dsimp only
      rw [findJob_append_right hnone]
      simp [findJob, List.find?]

theorem moduleAddJob_unknown_queue (m : ManagerState) (qn : String)
    (spec : JobSpec) (now : Nat) (hq : getQueue m qn = none) :
    ∃ q, getQueue (moduleAddJob m qn spec now).1 qn = some q ∧
      (getJob q (moduleAddJob m qn spec now).2).map (fun j => j.status)
        = some JobStatus.pending := by
  unfold moduleAddJob
  rw [hq]
  dsimp only
  refine ⟨(addJob (initQueue qn 4) spec now).1, ?_, ?_⟩
  · have hfn : m.queues.find? (fun p => p.1 == qn) = none := by
      cases hf : m.queues.find? (fun p => p.1 == qn) with
      | none => rfl
      | some pq => rw [getQueue, hf] at hq; simp at hq
    unfold getQueue
    dsimp only
    rw [find?_append_right _ _ _ hfn]
    simp [List.find?]
  · rw [getJob_addJob spec now (by simp [initQueue])]
    rfl

/-! ## `cancel_job` on a pending job -/

theorem cancelJob_pending {s : QueueState} {id : Nat} {j : Job}
    (h3 : s.queue.Nodup) (hj : getJob s id = some j) (hst : j.status = .pending) :
    (cancelJob s id).2 = true
    ∧ getJob (cancelJob s id).1 id = some { j with status := JobStatus.cancelled }
    ∧ id ∉ (cancelJob s id).1.queue
    ∧ (cancelJob s id).1.running = s.running := by
  unfold cancelJob
  rw [show findJob s.jobs id = some j from hj]
  dsimp only
  rw [if_pos hst]
  refine ⟨rfl, ?_, ?_, rfl⟩
  · show findJob (updateJob s.jobs id
      (fun j2 => { j2 with status := JobStatus.cancelled })) id = _
    rw [findJob_updateJob_self
      (fun j2 => { j2 with status := JobStatus.cancelled }) (fun x => rfl) hj]
  · show id ∉ (if id ∈ s.queue then s.queue.erase id else s.queue)
    by_cases hqm : id ∈ s.queue
    · rw [if_pos hqm]
      intro hmem
      exact absurd ((List.Nodup.mem_erase_iff h3).mp hmem).1 (by simp)
    · rw [if_neg hqm]
      exact hqm

/-! ## Concrete scenarios -/

def mkSpec (nm : String) (p : JobPriority) (mr : Int) : JobSpec :=
  { name := nm, priority := p, maxRetries := mr, retryDelay := 60,
    scheduledAt := none, timeout := none }

def retryBase : QueueState :=
  runOps (initQueue "q" 4)
    [.addJob (mkSpec "r" .normal 3) 0, .dispatch, .beginExec 0 0,
     .finishExec 0 ⟨some "boom", "", 0⟩ 1]

def retryJob : Job :=
  { id := 0, name := "r", status := .retrying, priority := .normal,
    createdAt := 0, startedAt := some 0, completedAt := none, result := none,
    error := some "boom", retryCount := 1, maxRetries := 3, retryDelay := 60,
    scheduledAt := some 61, timeout := none }

def exhaustBase : QueueState :=
  runOps (initQueue "q" 4)
    [.addJob (mkSpec "f" .normal 2) 0, .dispatch, .beginExec 0 0,
     .finishExec 0 ⟨some "always fails", "", 0⟩ 1]

def exhaustJob : Job :=
  { id := 0, name := "f", status := .retrying, priority := .normal,
    createdAt := 0, startedAt := some 0, completedAt := none, result := none,
    error := some "always fails", retryCount := 1, maxRetries := 2,
    retryDelay := 60, scheduledAt := some 61, timeout := none }

/-! ## Claim theorems -/

/-- C1 (code bug): the failure branch itself matches the claim — the job is
set to `Retrying`, the error is recorded, and `scheduled_at` becomes
`now + retry_delay` — but the promotion pass (`_process_scheduled_jobs`) only
promotes jobs whose status is `Pending`, and no code path ever moves a
`Retrying` job back to `Pending`.  Hence from the concrete post-failure state,
after every further operation sequence the job is still `Retrying`, outside
the dispatch list and outside the running map: it is never dispatched again,
contradicting the claim that it re-enters `Pending` and is eventually
re-dispatched. -/
theorem retrying_job_never_redispatched (ops : List Op) :
    getJob retryBase 0 = some retryJob
    ∧ retryJob.status = JobStatus.retrying
    ∧ retryJob.error = some "boom"
    ∧ retryJob.scheduledAt = some 61
    ∧ (getJob (runOps retryBase ops) 0).map (fun j => j.status)
        = some JobStatus.retrying
    ∧ 0 ∉ (runOps retryBase ops).queue
    ∧ 0 ∉ runningKeys (runOps retryBase ops) := by
  have hbase : getJob retryBase 0 = some retryJob := by decide
  have hInv : QueueInv retryBase :=
    queueInv_runOps (queueInv_initQueue "q" 4) _
  have hfr := frozen_runOps ops hInv hbase (by decide) (by decide)
    (.inl (by decide)) (by decide) (by decide)
  refine ⟨hbase, rfl, rfl, rfl, ?_, hfr.2.1, hfr.2.2⟩
  rw [hfr.1]
  rfl

/-- C4 (code bug): with an always-failing handler and `max_retries = 2` the
first failed attempt leaves the job `Retrying` with `retry_count = 1`, and —
because `Retrying` jobs are never promoted back to `Pending` — every further
operation sequence leaves it exactly there: the job never reaches `Failed`,
never reaches `retry_count = 3`, and the failed counter is never incremented
for it. -/
theorem retry_exhaustion_never_reached (ops : List Op) :
    (getJob (runOps exhaustBase ops) 0).map (fun j => (j.status, j.retryCount))
      = some (JobStatus.retrying, 1)
    ∧ exhaustBase.stats.failedJobs = 0 := by
  have hbase : getJob exhaustBase 0 = some exhaustJob := by decide
  have hInv : QueueInv exhaustBase :=
    queueInv_runOps (queueInv_initQueue "q" 4) _
  have hfr := frozen_runOps ops hInv hbase (by decide) (by decide)
    (.inl (by decide)) (by decide) (by decide)
  refine ⟨?_, by decide⟩
  rw [hfr.1]
  rfl

/-- C2: starting from a freshly constructed queue with any `max_workers`
bound, after every sequence of add/promote/dispatch/execute/cancel/cleanup
operations the number of stored jobs whose status is `Running` is at most
`max_workers`. -/
theorem running_never_exceeds_max_workers (nm : String) (w : Nat)
    (ops : List Op) :
    ((runOps (initQueue nm w) ops).jobs.filter
      (fun j => j.status == JobStatus.running)).length ≤ w := by
  have h := countRunning_le_of_inv (queueInv_runOps (queueInv_initQueue nm w) ops)
  rw [runOps_maxWorkers] at h
  exact h

def prioScenario : QueueState :=
  runOps (initQueue "q" 1)
    [.addJob (mkSpec "low" .low 3) 0, .addJob (mkSpec "crit" .critical 3) 0,
     .addJob (mkSpec "norm" .normal 3) 0,
     .dispatch, .beginExec 1 1, .finishExec 1 ⟨none, "", 0⟩ 1,
     .dispatch, .beginExec 2 2, .finishExec 2 ⟨none, "", 0⟩ 2,
     .dispatch, .beginExec 0 3]

/-- C3: folding the `_enqueue_job` insertion over any duplicate-free sequence
of job ids keeps the dispatch list sorted by priority value descending
(`Pairwise`), and for each priority value `p` the subsequence of the list at
that priority equals the submission subsequence at that priority — equal
priorities keep FIFO order.  Concretely, jobs submitted Low (id 0), Critical
(id 1), Normal (id 2) to a `max_workers = 1` queue start executing at times
1, 2, 3 respectively: Critical first, then Normal, then Low. -/
theorem dispatch_list_sorted_and_fifo (prio : Nat → Nat) (subs : List Nat)
    (p : Nat) (hnd : subs.Nodup) :
    ((buildQueueList prio subs).Pairwise (fun a b => prio b ≤ prio a)
      ∧ (buildQueueList prio subs).filter (fun y => prio y == p)
          = subs.filter (fun y => prio y == p))
    ∧ ((getJob prioScenario 1).map (fun j => j.startedAt) = some (some 1)
      ∧ (getJob prioScenario 2).map (fun j => j.startedAt) = some (some 2)
      ∧ (getJob prioScenario 0).map (fun j => j.startedAt) = some (some 3)) :=
  ⟨buildQueueList_sorted_and_stable prio p subs hnd,
   by decide, by decide, by decide⟩

/-- Witness for C3: the property applied at the priority map `fun i => i`,
the submissions `[2, 0, 1]` and the priority value `0`. -/
theorem dispatch_list_sorted_and_fifo_witness :
    ([2, 0, 1] : List Nat).Nodup
    ∧ (((buildQueueList (fun i => i) [2, 0, 1]).Pairwise (fun a b => b ≤ a)
        ∧ (buildQueueList (fun i => i) [2, 0, 1]).filter (fun y => y == 0)
            = ([2, 0, 1] : List Nat).filter (fun y => y == 0))
      ∧ ((getJob prioScenario 1).map (fun j => j.startedAt) = some (some 1)
        ∧ (getJob prioScenario 2).map (fun j => j.startedAt) = some (some 2)
        ∧ (getJob prioScenario 0).map (fun j => j.startedAt) = some (some 3))) :=
  ⟨by decide, dispatch_list_sorted_and_fifo (fun i => i) [2, 0, 1] 0 (by decide)⟩

def timeoutSpec : JobSpec :=
  { name := "t", priority := .normal, maxRetries := 0, retryDelay := 60,
    scheduledAt := none, timeout := some 1 }

def timeoutState : QueueState :=
  runOps (initQueue "q" 4)
    [.addJob timeoutSpec 0, .dispatch, .beginExec 0 0,
     .finishExec 0 ⟨none, "v", 5⟩ 6]

def timeoutGenericState : QueueState :=
  runOps (initQueue "q" 4)
    [.addJob timeoutSpec 0, .dispatch, .beginExec 0 0,
     .finishExec 0 ⟨some "", "v", 0⟩ 6]

/-- C5 counterexample: the job with `timeout = 1`, a 5-second handler and
`max_retries = 0` does end `Failed`, but the error it records is the empty
string — `str(asyncio.TimeoutError())` — and the whole resulting job record
is identical to that of a handler that raised a generic exception with empty
message: no `Timeout` error kind is recorded anywhere. -/
theorem timeout_error_kind_not_recorded :
    (getJob timeoutState 0).map (fun j => j.status) = some JobStatus.failed
    ∧ (getJob timeoutState 0).map (fun j => j.error) = some (some "")
    ∧ getJob timeoutState 0 = getJob timeoutGenericState 0 := by decide

def timeoutMid : QueueState :=
  runOps (initQueue "q" 4) [.addJob timeoutSpec 0, .dispatch, .beginExec 0 0]

def timeoutMidJob : Job :=
  { id := 0, name := "t", status := .running, priority := .normal,
    createdAt := 0, startedAt := some 0, completedAt := none, result := none,
    error := none, retryCount := 0, maxRetries := 0, retryDelay := 60,
    scheduledAt := none, timeout := some 1 }

/-- C5 amended: when a job has a timeout and the handler run exceeds it, the
execution step behaves exactly as if the handler had raised an exception —
the same `except` branch runs, with `str(TimeoutError) = ""` as the recorded
error (no separate Timeout kind); the concrete job with `timeout = 1`, a
5-second handler and `max_retries = 0` ends `Failed` with its failed counter
incremented. -/
theorem timeout_treated_as_handler_error {s : QueueState} {id : Nat}
    {job : Job} {t : Nat} (rn : HandlerRun) (now : Nat)
    (hjob : findJob s.jobs id = some job) (ht : job.timeout = some t)
    (hd : t < rn.duration) :
    finishExec s id rn now = finishExec s id ⟨some "", rn.value, 0⟩ now
    ∧ (getJob timeoutState 0).map (fun j => (j.status, j.completedAt))
        = some (JobStatus.failed, some 6)
    ∧ timeoutState.stats.failedJobs = 1 :=
  ⟨timeout_behaves_as_error rn now hjob ht hd, by decide, by decide⟩

/-- Witness for C5 at the concrete mid-execution state. -/
theorem timeout_treated_as_handler_error_witness :
    (findJob timeoutMid.jobs 0 = some timeoutMidJob
      ∧ timeoutMidJob.timeout = some 1
      ∧ 1 < (5 : Nat))
    ∧ (finishExec timeoutMid 0 ⟨none, "v", 5⟩ 6
        = finishExec timeoutMid 0 ⟨some "", "v", 0⟩ 6
      ∧ (getJob timeoutState 0).map (fun j => (j.status, j.completedAt))
          = some (JobStatus.failed, some 6)
      ∧ timeoutState.stats.failedJobs = 1) :=
  ⟨⟨by decide, by decide, by decide⟩,
   @timeout_treated_as_handler_error timeoutMid 0 timeoutMidJob 1
     ⟨none, "v", 5⟩ 6 (by decide) (by decide) (by decide)⟩

def retrying6 : QueueState :=
  runOps (initQueue "a" 4)
    [.addJob (mkSpec "r6" .normal 3) 0, .dispatch, .beginExec 0 0,
     .finishExec 0 ⟨some "e", "", 0⟩ 1]

def window6 : QueueState :=
  runOps (initQueue "b" 4) [.addJob (mkSpec "w6" .normal 3) 0, .dispatch]

/-- C6 counterexample, two parts.  First, a job in `Retrying` status — which
is not a terminal status — also gets `false` back from `cancel_job`, so
`false` is not returned exactly for unknown ids and terminal jobs.  Second, a
job that the dispatch pass has already popped (its task is created but its
coroutine body has not run yet) is still `Pending`: `cancel_job` returns
`true` through the Pending branch, yet the already-scheduled task then
executes the handler anyway — the job becomes Running and then Completed with
`started_at` set — so cancellation of a Pending job does not always prevent
execution. -/
theorem cancel_job_claim_counterexample :
    ((getJob retrying6 0).map (fun j => j.status) = some JobStatus.retrying
      ∧ isTerminal JobStatus.retrying = false
      ∧ (cancelJob retrying6 0).2 = false)
    ∧ ((getJob window6 0).map (fun j => j.status) = some JobStatus.pending
      ∧ (cancelJob window6 0).2 = true
      ∧ (getJob (runOps (cancelJob window6 0).1
            [.beginExec 0 4, .finishExec 0 ⟨none, "x", 0⟩ 5]) 0).map
          (fun j => (j.status, j.startedAt))
        = some (JobStatus.completed, some 4)) := by decide

/-- C6 amended: `cancel_job` on a Pending job removes it from the dispatch
list, marks it Cancelled and returns `true`; if additionally the job has not
been popped by a dispatch pass (it has no task in the running map), then its
handler never subsequently begins execution: after every further operation
sequence the record is still exactly the cancelled job (in particular
`started_at` is unchanged) and the id never enters the running map.
`cancel_job` returns `false` for unknown ids, for terminal-status jobs, and
also for `Retrying` jobs; it returns `true` for Running jobs that are present
in the running map. -/
theorem cancel_job_amended (s : QueueState) (id : Nat) (j : Job)
    (hInv : QueueInv s) :
    (getJob s id = none → (cancelJob s id).2 = false)
    ∧ (getJob s id = some j → isTerminal j.status = true →
        (cancelJob s id).2 = false)
    ∧ (getJob s id = some j → j.status = .retrying → (cancelJob s id).2 = false)
    ∧ (getJob s id = some j → j.status = .running → id ∈ runningKeys s →
        (cancelJob s id).2 = true)
    ∧ (getJob s id = some j → j.status = .pending →
        (cancelJob s id).2 = true
        ∧ getJob (cancelJob s id).1 id = some { j with status := JobStatus.cancelled }
        ∧ id ∉ (cancelJob s id).1.queue
        ∧ (j.completedAt = none → id ∉ runningKeys s → ∀ ops : List Op,
            getJob (runOps (cancelJob s id).1 ops) id
                = some { j with status := JobStatus.cancelled }
            ∧ id ∉ runningKeys (runOps (cancelJob s id).1 ops))) := by
  refine ⟨?_, ?_, ?_, ?_, ?_⟩
  · intro hnone
    unfold cancelJob
    rw [show findJob s.jobs id = none from hnone]
  · intro hj hterm
    have hp : j.status ≠ .pending := by
      intro he; rw [he] at hterm; simp [isTerminal] at hterm
    have hr : j.status ≠ .running := by
      intro he; rw [he] at hterm; simp [isTerminal] at hterm
    unfold cancelJob
    rw [show findJob s.jobs id = some j from hj]
    dsimp only
    rw [if_neg hp, if_neg hr]
  · intro hj hst
    have hp : j.status ≠ .pending := by rw [hst]; intro he; cases he
    have hr : j.status ≠ .running := by rw [hst]; intro he; cases he
    unfold cancelJob
    rw [show findJob s.jobs id = some j from hj]
    dsimp only
    rw [if_neg hp, if_neg hr]
  · intro hj hst hmem
    have hp : j.status ≠ .pending := by rw [hst]; intro he; cases he
    unfold cancelJob
    rw [show findJob s.jobs id = some j from hj]
    dsimp only
    rw [if_neg hp, if_pos hst, if_pos hmem]
  · intro hj hst
    obtain ⟨hret, hg, hqn, hrun⟩ := cancelJob_pending hInv.2.2.1 hj hst
    refine ⟨hret, hg, hqn, ?_⟩
    intro hca hk ops
    have hInv2 : QueueInv (cancelJob s id).1 := queueInv_cancelJob hInv id
    have hfr := frozen_runOps ops hInv2 hg
      (fun h => JobStatus.noConfusion h)
      (fun h => JobStatus.noConfusion h)
      (.inr hca) hqn
      (by show id ∉ (cancelJob s id).1.running.map (fun e => e.id)
          rw [hrun]
          exact hk)
    exact ⟨hfr.1, hfr.2.2⟩

instance (s : QueueState) : Decidable (QueueInv s) := by
  unfold QueueInv
  infer_instance

def window6Job : Job :=
  { id := 0, name := "w6", status := .pending, priority := .normal,
    createdAt := 0, startedAt := none, completedAt := none, result := none,
    error := none, retryCount := 0, maxRetries := 3, retryDelay := 60,
    scheduledAt := none, timeout := none }

/-- Witness for C6 at the concrete state `window6`. -/
theorem cancel_job_amended_witness :
    QueueInv window6
    ∧ ((getJob window6 0 = none → (cancelJob window6 0).2 = false)
      ∧ (getJob window6 0 = some window6Job → isTerminal window6Job.status = true →
          (cancelJob window6 0).2 = false)
      ∧ (getJob window6 0 = some window6Job → window6Job.status = .retrying →
          (cancelJob window6 0).2 = false)
      ∧ (getJob window6 0 = some window6Job → window6Job.status = .running →
          0 ∈ runningKeys window6 → (cancelJob window6 0).2 = true)
      ∧ (getJob window6 0 = some window6Job → window6Job.status = .pending →
          (cancelJob window6 0).2 = true
          ∧ getJob (cancelJob window6 0).1 0
              = some { window6Job with status := JobStatus.cancelled }
          ∧ 0 ∉ (cancelJob window6 0).1.queue
          ∧ (window6Job.completedAt = none → 0 ∉ runningKeys window6 →
              ∀ ops : List Op,
              getJob (runOps (cancelJob window6 0).1 ops) 0
                  = some { window6Job with status := JobStatus.cancelled }
              ∧ 0 ∉ runningKeys (runOps (cancelJob window6 0).1 ops)))) :=
  ⟨by decide, cancel_job_amended window6 0 window6Job (by decide)⟩

def doubleCancelState : QueueState :=
  runOps (initQueue "q" 4)
    [.addJob (mkSpec "c" .normal 3) 0, .dispatch, .beginExec 0 0, .cancelJob 0,
     .finishExec 0 ⟨none, "", 0⟩ 1]

/-- C7 (code bug): a single submitted job that is cancelled while Running
increments the cancelled counter twice — once synchronously in `cancel_job`
(the Running branch) and once more in the `except CancelledError` handler of
`_execute_job` when the cancelled task unwinds.  One job total, counter 2,
contradicting "at most one increment in total across the completed, failed
and cancelled counters per job". -/
theorem running_cancel_double_counts :
    doubleCancelState.stats.totalJobs = 1
    ∧ doubleCancelState.stats.cancelledJobs = 2
    ∧ doubleCancelState.stats.completedJobs = 0
    ∧ doubleCancelState.stats.failedJobs = 0
    ∧ (getJob doubleCancelState 0).map (fun j => j.status)
        = some JobStatus.cancelled := by decide

def negRetrySpec : JobSpec :=
  { name := "n", priority := .normal, maxRetries := -1, retryDelay := 60,
    scheduledAt := none, timeout := none }

/-- C8 counterexample: `add_job` does not validate its inputs — a negative
`max_retries` of `-1` is accepted and the job is created in status Pending
with `max_retries = -1` stored verbatim; and the module-level `add_job` with
an unknown queue name does not fail: it creates the queue on the fly and
succeeds. -/
theorem add_job_no_validation :
    ((addJob (initQueue "q" 4) negRetrySpec 0).2 = 0
      ∧ (getJob (addJob (initQueue "q" 4) negRetrySpec 0).1 0).map
          (fun j => (j.status, j.maxRetries)) = some (JobStatus.pending, -1))
    ∧ (getQueue (moduleAddJob ⟨[]⟩ "nosuch" negRetrySpec 0).1 "nosuch").isSome
        = true := by decide

/-- C8 amended: `add_job` never fails and runs no handler code — for every
spec, negative `max_retries` included, it returns the fresh job id with the
job stored as Pending, `started_at` unset (the call does not consult any
handler behaviour), and the total counter bumped exactly once; the
module-level `add_job` called with an unknown queue name creates that queue
and succeeds instead of returning an error. -/
theorem add_job_always_succeeds (s : QueueState) (spec : JobSpec) (now : Nat)
    (m : ManagerState) (qn : String)
    (hids : ∀ j ∈ s.jobs, j.id < s.nextId) (hq : getQueue m qn = none) :
    ((getJob (addJob s spec now).1 (addJob s spec now).2).map (fun j => j.status)
        = some JobStatus.pending)
    ∧ ((getJob (addJob s spec now).1 (addJob s spec now).2).map
          (fun j => j.startedAt) = some none)
    ∧ (addJob s spec now).1.stats.totalJobs = s.stats.totalJobs + 1
    ∧ (∃ q, getQueue (moduleAddJob m qn spec now).1 qn = some q
        ∧ (getJob q (moduleAddJob m qn spec now).2).map (fun j => j.status)
            = some JobStatus.pending) := by
  refine ⟨?_, ?_, ?_, moduleAddJob_unknown_queue m qn spec now hq⟩
  · rw [getJob_addJob spec now hids]; rfl
  · rw [getJob_addJob spec now hids]; rfl
  · cases hsc : spec.scheduledAt with
    | none =>
      simp only [addJob, hsc]
      rw [(enqueueJob_fields _ _).2.2.2.2]
    | some t =>
      by_cases ht : t ≤ now
      · simp only [addJob, hsc, if_pos ht]
        rw [(enqueueJob_fields _ _).2.2.2.2]
      · simp only [addJob, hsc, if_neg ht]

/-- Witness for C8: negative `max_retries` and an unknown queue name. -/
theorem add_job_always_succeeds_witness :
    ((∀ j ∈ (initQueue "q" 4).jobs, j.id < (initQueue "q" 4).nextId)
      ∧ getQueue (⟨[]⟩ : ManagerState) "x" = none)
    ∧ (((getJob (addJob (initQueue "q" 4) negRetrySpec 7).1
          (addJob (initQueue "q" 4) negRetrySpec 7).2).map (fun j => j.status)
            = some JobStatus.pending)
      ∧ ((getJob (addJob (initQueue "q" 4) negRetrySpec 7).1
            (addJob (initQueue "q" 4) negRetrySpec 7).2).map
              (fun j => j.startedAt) = some none)
      ∧ (addJob (initQueue "q" 4) negRetrySpec 7).1.stats.totalJobs
          = (initQueue "q" 4).stats.totalJobs + 1
      ∧ (∃ q, getQueue (moduleAddJob ⟨[]⟩ "x" negRetrySpec 7).1 "x" = some q
          ∧ (getJob q (moduleAddJob ⟨[]⟩ "x" negRetrySpec 7).2).map
              (fun j => j.status) = some JobStatus.pending)) :=
  ⟨⟨by decide, by decide⟩,
   add_job_always_succeeds (initQueue "q" 4) negRetrySpec 7 ⟨[]⟩ "x"
     (by decide) (by decide)⟩

theorem shouldRemove_iff (now : Nat) (j : Job) :
    shouldRemove now j = true
      ↔ (isTerminal j.status = true
          ∧ ∃ t0, j.completedAt = some t0 ∧ t0 < now - 24 * 3600) := by
  unfold shouldRemove
  cases hca : j.completedAt with
  | none => simp
  | some t0 => simp

/-- C9: the cleanup pass removes exactly the stored jobs with a terminal
status whose `completed_at` is strictly older than `now` minus the 24-hour
retention window — `get_job` afterwards is `none` exactly for those and
returns every other job unchanged (in particular terminal jobs younger than
the window and all non-terminal jobs are still present), and an id unknown
before the pass is still unknown after it. -/
theorem cleanup_removes_exactly_expired (s : QueueState) (now id : Nat)
    (hInv : QueueInv s) :
    getJob (cleanupCompletedJobs s now) id
      = (getJob s id).bind (fun j => if shouldRemove now j then none else some j)
    ∧ (∀ j : Job, getJob s id = some j →
        (getJob (cleanupCompletedJobs s now) id = none
          ↔ (isTerminal j.status = true
              ∧ ∃ t0, j.completedAt = some t0 ∧ t0 < now - 24 * 3600)))
    ∧ (∀ j : Job, getJob s id = some j → shouldRemove now j = false →
        getJob (cleanupCompletedJobs s now) id = some j)
    ∧ (getJob s id = none → getJob (cleanupCompletedJobs s now) id = none) := by
  have hmain := cleanup_getJob hInv.1 now id
  refine ⟨hmain, ?_, ?_, ?_⟩
  · intro j hjeq
    rw [hmain, hjeq, ← shouldRemove_iff now j]
    cases hrm : shouldRemove now j <;> simp [hrm]
  · intro j hjeq hrm
    rw [hmain, hjeq]
    simp [hrm]
  · intro hnone
    rw [hmain, hnone]
    rfl

def cleanupDemo : QueueState :=
  { name := "q", maxWorkers := 4,
    jobs :=
      [{ id := 0, name := "old", status := .completed, priority := .normal,
         createdAt := 0, startedAt := some 1, completedAt := some 50,
         result := some "r", error := none, retryCount := 0, maxRetries := 3,
         retryDelay := 60, scheduledAt := none, timeout := none },
       { id := 1, name := "young", status := .completed, priority := .normal,
         createdAt := 0, startedAt := some 1, completedAt := some 2000,
         result := some "r", error := none, retryCount := 0, maxRetries := 3,
         retryDelay := 60, scheduledAt := none, timeout := none },
       { id := 2, name := "pend", status := .pending, priority := .normal,
         createdAt := 0, startedAt := none, completedAt := none, result := none,
         error := none, retryCount := 0, maxRetries := 3, retryDelay := 60,
         scheduledAt := none, timeout := none }],
    queue := [2], running := [], stats := ⟨3, 2, 0, 0⟩, nextId := 3 }

/-- Witness for C9: at time 86500 (cutoff 100) on a state holding a terminal
job completed at 50, a terminal job completed at 2000, and a pending job. -/
theorem cleanup_removes_exactly_expired_witness :
    QueueInv cleanupDemo
    ∧ (getJob (cleanupCompletedJobs cleanupDemo 86500) 0
        = (getJob cleanupDemo 0).bind
            (fun j => if shouldRemove 86500 j then none else some j)
      ∧ (∀ j : Job, getJob cleanupDemo 0 = some j →
          (getJob (cleanupCompletedJobs cleanupDemo 86500) 0 = none
            ↔ (isTerminal j.status = true
                ∧ ∃ t0, j.completedAt = some t0 ∧ t0 < 86500 - 24 * 3600)))
      ∧ (∀ j : Job, getJob cleanupDemo 0 = some j → shouldRemove 86500 j = false →
          getJob (cleanupCompletedJobs cleanupDemo 86500) 0 = some j)
      ∧ (getJob cleanupDemo 0 = none →
          getJob (cleanupCompletedJobs cleanupDemo 86500) 0 = none)) :=
  ⟨by decide, cleanup_removes_exactly_expired cleanupDemo 86500 0 (by decide)⟩

def window10 : QueueState :=
  runOps (initQueue "w" 2) [.addJob (mkSpec "w10" .normal 3) 0, .dispatch]

/-- C10 counterexample: a job cancelled while its status is Pending does not
always keep `completed_at = none` forever.  If the dispatch pass has already
popped the job and created its task (the job is still Pending at that point),
the Pending branch of `cancel_job` returns true, but the scheduled task then
runs the handler anyway and sets `completed_at` when it finishes. -/
theorem pending_cancel_completed_at_counterexample :
    (getJob window10 0).map (fun j => j.status) = some JobStatus.pending
    ∧ (cancelJob window10 0).2 = true
    ∧ (getJob (runOps (cancelJob window10 0).1
          [.beginExec 0 3, .finishExec 0 ⟨none, "r", 0⟩ 7]) 0).map
        (fun j => j.completedAt) = some (some 7) := by decide

/-- C10 amended: for a job cancelled while Pending that has not been popped by
a dispatch pass (no task in the running map), `completed_at` remains unset
forever: after every further operation sequence the job is still stored as
exactly the cancelled record with `completed_at = none` — so the retention
cleanup (which requires a non-null `completed_at`) never removes it and
`get_job` keeps returning it for the process lifetime. -/
theorem pending_cancel_never_cleaned (s : QueueState) (id : Nat) (j : Job)
    (hInv : QueueInv s) (hj : getJob s id = some j) (hst : j.status = .pending)
    (hca : j.completedAt = none) (hk : id ∉ runningKeys s) (ops : List Op) :
    getJob (runOps (cancelJob s id).1 ops) id
        = some { j with status := JobStatus.cancelled }
    ∧ (getJob (runOps (cancelJob s id).1 ops) id).map (fun j2 => j2.completedAt)
        = some none := by
  obtain ⟨_, hg, hqn, hrun⟩ := cancelJob_pending hInv.2.2.1 hj hst
  have hInv2 : QueueInv (cancelJob s id).1 := queueInv_cancelJob hInv id
  have hfr := frozen_runOps ops hInv2 hg
    (fun h => JobStatus.noConfusion h)
    (fun h => JobStatus.noConfusion h)
    (.inr hca) hqn
    (by show id ∉ (cancelJob s id).1.running.map (fun e => e.id)
        rw [hrun]
        exact hk)
  refine ⟨hfr.1, ?_⟩
  rw [hfr.1]
  show some ({ j with status := JobStatus.cancelled } : Job).completedAt = some none
  rw [show ({ j with status := JobStatus.cancelled } : Job).completedAt
      = j.completedAt from rfl, hca]

def pendingOnly : QueueState :=
  runOps (initQueue "p" 4) [.addJob (mkSpec "p0" .normal 3) 5]

def pendingOnlyJob : Job :=
  { id := 0, name := "p0", status := .pending, priority := .normal,
    createdAt := 5, startedAt := none, completedAt := none, result := none,
    error := none, retryCount := 0, maxRetries := 3, retryDelay := 60,
    scheduledAt := none, timeout := none }

/-- Witness for C10: a freshly added, never dispatched job, cancelled and
then run through a promotion pass, a dispatch pass and a far-future cleanup. -/
theorem pending_cancel_never_cleaned_witness :
    (QueueInv pendingOnly
      ∧ getJob pendingOnly 0 = some pendingOnlyJob
      ∧ pendingOnlyJob.status = JobStatus.pending
      ∧ pendingOnlyJob.completedAt = none
      ∧ 0 ∉ runningKeys pendingOnly)
    ∧ (getJob (runOps (cancelJob pendingOnly 0).1
          [.promote 100, .dispatch, .cleanup 1000000000]) 0
        = some { pendingOnlyJob with status := JobStatus.cancelled }
      ∧ (getJob (runOps (cancelJob pendingOnly 0).1
            [.promote 100, .dispatch, .cleanup 1000000000]) 0).map
          (fun j2 => j2.completedAt) = some none) :=
  ⟨⟨by decide, by decide, by decide, by decide, by decide⟩,
   pending_cancel_never_cleaned pendingOnly 0 pendingOnlyJob (by decide)
     (by decide) (by decide) (by decide) (by decide)
     [.promote 100, .dispatch, .cleanup 1000000000]⟩
